import Mathlib

/-!
Verification of the ESP AT-command driver and its embedded HTTP server
(`src/esp/esp.c`, `src/apps/http_server/esp_http_server.c`).

Shallow embedding conventions:
* bytes and C strings are `List Char`; pbuf chains are modelled by their
  linearisation (the pbuf module is not part of the provided sources, its
  operations are modelled from the specification of the chain operations);
* machine integers are `Nat` (no overflow is reachable in the modelled code);
* environment effects (allocator, OS semaphores, mailboxes, the file
  provider) are explicit oracle parameters.
-/

namespace EspAt

/-! ## Byte-list utilities (linearised pbuf operations)

`esp_pbuf_strfind(p, needle, from)` returns the first index `>= from` at
which `needle` occurs in the linearised chain, `ESP_SIZET_MAX` otherwise;
we model the sentinel by `Option`.  `esp_pbuf_strcmp(p, s, off)` returns 0
exactly when `s` occurs at offset `off`. -/

/-- First index at which `needle` occurs in `hay` (as a contiguous
sublist), or `none`. -/
def firstMatch (hay needle : List Char) : Option Nat :=
  match hay with
  | [] => if needle.isEmpty then some 0 else none
  | _ :: t =>
    if needle.isPrefixOf hay then some 0
    else (firstMatch t needle).map (· + 1)

/-- `esp_pbuf_strfind` over the linearised chain: first occurrence at an
index `>= start`. -/
def strfind (hay needle : List Char) (start : Nat) : Option Nat :=
  (firstMatch (hay.drop start) needle).map (· + start)

/-- `esp_pbuf_strcmp p s off = 0`, i.e. `s` matches `p` at offset `off`. -/
def strcmpAt (hay s : List Char) (off : Nat) : Bool :=
  s.isPrefixOf (hay.drop off)

/-! ## Command pipeline (`src/src/esp/esp.c`)

`esp_msg_t` carries a definitive command `cmd_def` and an optional initial
command `cmd` (the C field is the zero command code when unset, which we
model with `Option`).  The OS primitives (`esp_sys_*`) and the message
allocation macro `ESP_MSG_VAR_ALLOC` are declared in headers that are not
part of the provided sources; their behaviour is taken from the spec as
noted on each definition. -/

/-- AT command codes used by the modelled API calls
(`esp_cmd_t`, values relevant to the claims). -/
inductive EspCmd where
  | RESET
  | WIFI_CWMODE
  | WIFI_CWJAP
  | TCPIP_CIPMUX
  | TCPIP_CIPDINFO
  | TCPIP_CIPSTATUS
  | TCPIP_CIPSTART
  | TCPIP_CIPCLOSE
  | TCPIP_CIPSEND
  deriving DecidableEq, Repr

/-- Result codes (`espr_t`); only the members the claims mention are
modelled. -/
inductive Espr where
  | espOK
  | espERR
  | espTIMEOUT
  deriving DecidableEq, Repr

/-- Command-specific parameters carried by a message (the union member
fields the modelled API calls set). -/
inductive MsgParams where
  | noParams
  | wifiMode (mode : Nat)
  | staJoin (name pass : List Char) (def_ : Nat)
  | tcpipMux (mux : Nat)
  | tcpipDinfo (info : Nat)
  | connStart (host : List Char) (port : Nat)
  deriving DecidableEq, Repr

/-- `esp_msg_t`: the fields read or written by
`send_msg_to_producer_queue` and the API constructors.  `cmd = none`
models the C zero command code ("not set by user"). -/
structure EspMsg where
  cmd_def : EspCmd
  cmd : Option EspCmd := none
  params : MsgParams := .noParams
  deriving DecidableEq, Repr

/-- Environment oracle for one `send_msg_to_producer_queue` call.
`esp_sys_*` primitives are absent from the provided sources; modelled from
the spec: semaphore creation may fail, the non-blocking mailbox put may
fail (queue full), the blocking put always succeeds, and the pipeline
eventually resolves the message at time `doneAt` with result `doneRes`. -/
structure PipeEnv where
  semCreateOk : Bool
  putnowOk : Bool
  doneAt : Nat
  doneRes : Espr

/-- Observable outcome of `send_msg_to_producer_queue`. -/
structure SendOutcome where
  res : Espr
  /-- whether the message reached the producer queue -/
  enqueued : Bool
  /-- the effective initial command after the `if (!msg->cmd)` fixup -/
  effCmd : EspCmd
  /-- the timeout argument passed to `esp_sys_sem_wait` (`none` when no
  wait happened); the source passes the literal `0000`. -/
  semWaitTimeoutArg : Option Nat
  /-- time at which the semaphore wait returned (`none` when no wait) -/
  waitedUntil : Option Nat
  deriving DecidableEq, Repr

/-- `send_msg_to_producer_queue` (`esp.c:50`-`85`): blocking calls create
a semaphore, enqueue with the blocking mailbox put and then wait on the
semaphore with timeout argument `0000` (spec-modelled `esp_sys_sem_wait`:
timeout `0` waits indefinitely, so the wait returns at `env.doneAt` and
the `ESP_SYS_TIMEOUT` branch is not taken); non-blocking calls use
`esp_sys_mbox_putnow` and return immediately. -/
def send_msg_to_producer_queue (msg : EspMsg) (block_time : Nat)
    (env : PipeEnv) : SendOutcome :=
  let effCmd := msg.cmd.getD msg.cmd_def
  if block_time ≠ 0 then
    if ¬ env.semCreateOk then
      -- ESP_MSG_VAR_FREE(msg); return espERR
      { res := .espERR, enqueued := false, effCmd := effCmd,
        semWaitTimeoutArg := none, waitedUntil := none }
    else
      -- esp_sys_mbox_put: waits forever, the message is enqueued
      -- then: sem wait with argument 0000 (infinite), res := msg->res
      { res := env.doneRes, enqueued := true, effCmd := effCmd,
        semWaitTimeoutArg := some 0, waitedUntil := some env.doneAt }
  else
    if env.putnowOk then
      { res := .espOK, enqueued := true, effCmd := effCmd,
        semWaitTimeoutArg := none, waitedUntil := none }
    else
      { res := .espERR, enqueued := false, effCmd := effCmd,
        semWaitTimeoutArg := none, waitedUntil := none }

/-- An API-level call: `ESP_MSG_VAR_ALLOC` (spec-modelled: the allocation
macro returns `espERR`-like failure on out-of-memory, propagation policy
of section 7) followed by `send_msg_to_producer_queue`. -/
def api_call (allocOk : Bool) (msg : EspMsg) (block_time : Nat)
    (env : PipeEnv) : SendOutcome :=
  if allocOk then send_msg_to_producer_queue msg block_time env
  else { res := .espERR, enqueued := false, effCmd := msg.cmd.getD msg.cmd_def,
         semWaitTimeoutArg := none, waitedUntil := none }

/-! Message constructors, copied from the API functions in `esp.c`. -/

/-- `esp_reset` message (`esp.c:161`-`168`). -/
def esp_reset_msg : EspMsg := { cmd_def := .RESET }

/-- `esp_set_wifi_mode` message (`esp.c:177`-`185`). -/
def esp_set_wifi_mode_msg (mode : Nat) : EspMsg :=
  { cmd_def := .WIFI_CWMODE, params := .wifiMode mode }

/-- `esp_set_mux` message (`esp.c:452`-`460`). -/
def esp_set_mux_msg (mux : Nat) : EspMsg :=
  { cmd_def := .TCPIP_CIPMUX, params := .tcpipMux mux }

/-- `espi_set_dinfo` message (`esp.c:108`-`116`). -/
def espi_set_dinfo_msg (info : Nat) : EspMsg :=
  { cmd_def := .TCPIP_CIPDINFO, params := .tcpipDinfo info }

/-- `esp_get_conns_status` message (`esp.c:574`-`581`). -/
def esp_get_conns_status_msg : EspMsg := { cmd_def := .TCPIP_CIPSTATUS }

/-- `esp_sta_join` message (`esp.c:208`-`221`). -/
def esp_sta_join_msg (name pass : List Char) (def_ : Nat) : EspMsg :=
  { cmd_def := .WIFI_CWJAP, params := .staJoin name pass def_ }

/-- `esp_conn_start` message (`esp.c:503`-`516`): the definitive command
is CIPSTART but the initial command field is set to CIPSTATUS. -/
def esp_conn_start_msg (host : List Char) (port : Nat) : EspMsg :=
  { cmd_def := .TCPIP_CIPSTART, cmd := some .TCPIP_CIPSTATUS,
    params := .connStart host port }

/-- The messages `esp_init` (`esp.c:127`-`152`) hands to
`send_msg_to_producer_queue`, in call order (`esp.c:142`-`146`):
reset, wifi mode, mux, dinfo, connection status. -/
def esp_init_msgs : List EspMsg :=
  [ esp_reset_msg,
    esp_set_wifi_mode_msg espModeSta,
    esp_set_mux_msg 1,
    espi_set_dinfo_msg 1,
    esp_get_conns_status_msg ]
where
  /-- `ESP_MODE_STA`; the enum lives in a header absent from the provided
  sources.  Modelled from the spec (section 8, scenario 1: the emitted
  line is `AT+CWMODE_CUR=1`). -/
  espModeSta : Nat := 1

/-- Modelled from the spec: the AT text the producer thread emits for a
message (`espi_initiate_cmd` lives in `esp_int.c`, which is not among the
provided sources; the byte strings are from spec sections 6 and 8). -/
def atText (m : EspMsg) : List Char :=
  match m.cmd.getD m.cmd_def, m.params with
  | .RESET, _ => "AT+RST\r\n".data
  | .WIFI_CWMODE, .wifiMode mode => ("AT+CWMODE_CUR=" ++ toString mode ++ "\r\n").data
  | .TCPIP_CIPMUX, .tcpipMux mux => ("AT+CIPMUX=" ++ toString mux ++ "\r\n").data
  | .TCPIP_CIPDINFO, .tcpipDinfo info => ("AT+CIPDINFO=" ++ toString info ++ "\r\n").data
  | .TCPIP_CIPSTATUS, _ => "AT+CIPSTATUS\r\n".data
  | .WIFI_CWJAP, .staJoin name pass _ =>
      "AT+CWJAP_CUR=\"".data ++ name ++ "\",\"".data ++ pass ++ "\"\r\n".data
  | _, _ => []

/-- Modelled from the spec (section 4.4): the producer thread keeps one
message in flight and waits for its terminal `OK` before dequeuing the
next, so the serial trace is the per-message units in queue order, each
unit being the AT text followed by the modem's `OK` terminal. -/
def pipelineTrace (msgs : List EspMsg) : List (List Char × List Char) :=
  msgs.map fun m => (atText m, "OK\r\n".data)

/-! ## HTTP server (`src/src/apps/http_server/esp_http_server.c`)

Configuration macros (`HTTP_MAX_URI_LEN`, `HTTP_MAX_PARAMS`,
`ESP_CFG_CONN_MAX_DATA_LEN`) live in headers that are not among the
provided sources and are kept as parameters.  The claims assume the
POST-enabled compilation (`HTTP_SUPPORT_POST`), which is the variant
embedded here unless a `post` flag says otherwise. -/

def crlf : List Char := "\r\n".data

def crlf2 : List Char := "\r\n\r\n".data

/-- `http_req_method_t` (the header carrying the enum is not among the
provided sources; the spec lists exactly these members).  A fresh state is
`calloc`ed, so `req_method` initially holds the enum's zero member; every
modelled flow assigns the method at header completion before reading it,
and all three choices of zero member behave identically in the modelled
branches, so we fix NOTALLOWED as the initial value. -/
inductive HttpMethod where
  | NOTALLOWED
  | GET
  | POST
  deriving DecidableEq, Repr

/-- `http_data_method_not_allowed` (`esp_http_server.c:57`-`69`): the
fixed 405 response; `", POST"` is included when `HTTP_SUPPORT_POST` is
compiled in. -/
def http_data_method_not_allowed (post : Bool) : List Char :=
  "HTTP/1.1 405 Method Not Allowed\r\nConnection: close\r\nAllow: GET".data ++
    (if post then ", POST".data else []) ++ "\r\n\r\n".data

/-- `strcmpi` (`esp_http_server.c:111`-`120`) as an equality test:
`strcmpi a b == 0`. -/
def strcmpiEq (a b : List Char) : Bool :=
  a.map Char.toLower == b.map Char.toLower

/-- `http_index_filenames` (`esp_http_server.c:74`-`81`).  The source
lacks the comma between `"/index.shtm"` and `"/index.ssi"`, so the two
adjacent string literals concatenate into a single array entry and the
array has four entries, not five. -/
def http_index_filenames : List (List Char) :=
  [ "/index.shtml".data,
    ("/index.shtm" ++ "/index.ssi").data,
    "/index.html".data,
    "/index.htm".data ]

/-- `http_ssi_suffixes` (`esp_http_server.c:86`-`91`). -/
def http_ssi_suffixes : List (List Char) :=
  [ ".shtml".data, ".shtm".data, ".ssi".data ]

/-- `http_404_uris` (`esp_http_server.c:96`-`103`). -/
def http_404_uris : List (List Char) :=
  [ "/404.shtml".data, "/404.shtm".data, "/404.ssi".data,
    "/404.html".data, "/404.htm".data ]

/-- The SSI suffix test of `http_get_file_from_uri`
(`esp_http_server.c:271`-`279`): the suffix must be strictly shorter than
the URI and match its tail case-insensitively. -/
def uriHasSsiSuffix (uri : List Char) : Bool :=
  http_ssi_suffixes.any fun suffix =>
    suffix.length < uri.length &&
      strcmpiEq suffix (uri.drop (uri.length - suffix.length))

/-- File-provider oracle (`http_fs_data_open_file`; the provider itself
is external per the spec's file-provider contract): which paths open. -/
structure FsEnv where
  opens : List Char → Bool

/-- One parsed request parameter (`http_param_t`): name and optional
value. -/
structure HttpParam where
  name : List Char
  value : Option (List Char)
  deriving DecidableEq, Repr

/-- `http_get_params` (`esp_http_server.c:163`-`191`): split the query
string on `&` into at most `maxParams` entries, each further split at the
first `=`.  The C code rewrites separators to NUL in place; the model
returns the resulting (name, value) slices. -/
def http_get_params (maxParams : Nat) (params : List Char) : List HttpParam :=
  match maxParams with
  | 0 => []
  | mp + 1 =>
    let seg := params.takeWhile (· ≠ '&')
    let name := seg.takeWhile (· ≠ '=')
    let value := if seg.any (· = '=') then
        some ((seg.dropWhile (· ≠ '=')).drop 1) else none
    let rest := (params.dropWhile (· ≠ '&'))
    { name := name, value := value } ::
      (if rest.isEmpty then [] else http_get_params mp (rest.drop 1))

/-- A registered CGI entry (`http_cgi_t`): URI and handler; the handler
receives the extracted parameters and returns the replacement URI. -/
structure HttpCgi where
  uri : List Char
  fn : List HttpParam → List Char

/-- The user-supplied `http_init_t` data the modelled routines read. -/
structure HttpInit where
  cgi : List HttpCgi := []

/-- Result of `http_get_file_from_uri`: whether a file opened, the final
URI (after index/CGI/404 rewriting) and the SSI flag. -/
structure UriResolution where
  resp_file_opened : Bool
  uri : List Char
  is_ssi : Bool
  deriving DecidableEq, Repr

/-- `http_get_file_from_uri` (`esp_http_server.c:199`-`283`): for `/` or
`/?...` probe the index-filename array in order; otherwise split off the
query string, run a matching CGI handler, open the resulting path; fall
back to the 404 array; finally compute the SSI flag from the resolved
URI's suffix. -/
def http_get_file_from_uri (hi : HttpInit) (maxParams : Nat) (fs : FsEnv)
    (uri : List Char) : UriResolution :=
  let isIndexReq : Bool :=
    match uri with
    | ['/'] => true
    | '/' :: '?' :: _ => true
    | _ => false
  let afterIndex : Option (List Char) :=
    if isIndexReq then http_index_filenames.find? fs.opens else none
  let resolved : Option (List Char) :=
    match afterIndex with
    | some name => some name
    | none =>
      -- split URI at '?' (the C code NUL-terminates in place)
      let path := uri.takeWhile (· ≠ '?')
      let req_params : Option (List Char) :=
        if uri.any (· = '?') then some ((uri.dropWhile (· ≠ '?')).drop 1)
        else none
      let params := match req_params with
        | some p => http_get_params maxParams p
        | none => []
      let uri2 := match hi.cgi.find? (fun e => e.uri == path) with
        | some e => e.fn params
        | none => path
      if fs.opens uri2 then some uri2
      else
        match http_404_uris.find? fs.opens with
        | some name => some name
        | none => none
  match resolved with
  | some name =>
    { resp_file_opened := true, uri := name, is_ssi := uriHasSsiSuffix name }
  | none =>
    -- the loop left `uri` at the last 404 entry; no file is opened and
    -- `is_ssi` stays 0
    { resp_file_opened := false, uri := "/404.htm".data, is_ssi := false }

/-- `http_parse_uri` (`esp_http_server.c:127`-`156`): the first space must
sit at index 3 or 4, the URI runs to the second space (or to the CRLF for
an HTTP/0.9 request) and must fit in `HTTP_MAX_URI_LEN`. -/
def http_parse_uri (maxUriLen : Nat) (p : List Char) : Option (List Char) :=
  match strfind p " ".data 0 with
  | none => none
  | some pos_s =>
    if pos_s ≠ 3 ∧ pos_s ≠ 4 then none
    else
      match strfind p crlf 0 with
      | none => none
      | some pos_crlf =>
        let pos_e := (strfind p " ".data (pos_s + 1)).getD pos_crlf
        let uri_len := pos_e - pos_s - 1
        if uri_len > maxUriLen then none
        else some ((p.drop (pos_s + 1)).take uri_len)

/-- The digit loop of the `Content-Length` parser
(`esp_http_server.c:685`-`692`); an out-of-range read ends the loop (in C
the loop breaks when `esp_pbuf_get_at` fails; the single possible read of
an indeterminate byte at the very end of the chain is not modelled). -/
def clDigits (p : List Char) : Nat → Nat → Nat → Nat
  | 0, _, acc => acc
  | fuel + 1, pos, acc =>
    match p.get? pos with
    | some ch =>
      if '0' ≤ ch ∧ ch ≤ '9' then
        clDigits p fuel (pos + 1) (10 * acc + (ch.toNat - '0'.toNat))
      else acc
    | none => acc

/-- The `Content-Length` extraction of `http_evt_cb`
(`esp_http_server.c:676`-`693`): find `Content-Length:` or
`content-length:`, skip the 15 header characters and one optional space,
then accumulate decimal digits. -/
def parse_content_length (p : List Char) : Nat :=
  match (strfind p "Content-Length:".data 0).or
      (strfind p "content-length:".data 0) with
  | none => 0
  | some pos =>
    let pos := pos + 15
    let pos := if p.get? pos = some ' ' then pos + 1 else pos
    clDigits p (p.length + 1) pos 0

/-- Fuel-based halving loop; the fuel only serves structural recursion
and `allocAttempts` supplies enough of it ( halving can happen at most
`len` times). -/
def allocAttemptsAux : Nat → Nat → List Nat
  | 0, len => [len]
  | fuel + 1, len =>
    if len / 2 > 64 then len :: allocAttemptsAux fuel (len / 2) else [len]

/-- `allocAttempts len` is the sequence of buffer sizes the `do`/`while`
loop of `read_resp_file` (`esp_http_server.c:352`-`365`) requests: the
initial size, then repeated halving as long as the halved size exceeds
64. -/
def allocAttempts (len : Nat) : List Nat := allocAttemptsAux len len

/-- The POST-relevant and response-relevant per-connection fields of
`http_state_t` (zeroed by `esp_mem_calloc` on `CONN_ACTIVE`). -/
structure HttpState where
  headers_received : Bool := false
  /-- accumulated request pbuf chain, linearised; `[]` plays NULL -/
  p : List Char := []
  req_method : HttpMethod := .NOTALLOWED
  content_length : Nat := 0
  content_received : Nat := 0
  process_resp : Bool := false
  resp_file_opened : Bool := false
  resp_uri : List Char := []
  is_ssi : Bool := false
  /-- current response read buffer (`hs->buff`); `none` plays NULL -/
  buff : Option (List Char) := none
  buff_len : Nat := 0
  buff_ptr : Nat := 0
  written_total : Nat := 0
  sent_total : Nat := 0
  deriving DecidableEq, Repr

/-- Oracle for one `read_resp_file` call: the remaining-bytes query, the
static flag of the opened file, allocation success per requested size,
whether the actual read succeeds, and the bytes a read of a given size
returns. -/
structure FileEnv where
  remaining : Nat
  is_static : Bool
  allocOk : Nat → Bool
  readOk : Bool
  chunk : Nat → List Char

/-- `read_resp_file` (`esp_http_server.c:313`-`371`): reset the read
cursor, drop any previous buffer, query the remaining length; a static
file hands out its memory directly; a dynamic file allocates
`min(remaining, ESP_CFG_CONN_MAX_DATA_LEN)` bytes, halving on each
allocation failure while the halved size exceeds 64; a zero-byte read
releases the buffer. -/
def read_resp_file (env : FileEnv) (maxDataLen : Nat) (hs : HttpState) :
    HttpState :=
  if ¬ hs.resp_file_opened then hs
  else
    let hs := { hs with buff_ptr := 0, buff := none }
    let len := env.remaining
    if len = 0 then hs
    else if env.is_static then
      if env.readOk then
        { hs with buff := some (env.chunk len), buff_len := len }
      else hs
    else
      let len0 := min len maxDataLen
      match (allocAttempts len0).find? env.allocOk with
      | some s =>
        if env.readOk then
          { hs with buff := some (env.chunk s), buff_len := s }
        else { hs with buff := none, buff_len := s }
      | none => hs

/-- `send_response` (`esp_http_server.c:545`-`590`), with the
`is_ssi`-dispatched pump (`send_response_ssi` / `send_response_no_ssi`)
abstracted as `pump`, which returns the updated state and the bytes
written toward the connection.  Returns the state, the emitted bytes and
whether the connection is closed. -/
def send_response (post : Bool) (pump : HttpState → HttpState × List Char)
    (hs : HttpState) : HttpState × List Char × Bool :=
  if ¬ hs.process_resp ∨ (hs.written_total ≠ 0 ∧ hs.written_total ≠ hs.sent_total) then
    (hs, [], false)
  else if hs.resp_file_opened then
    let (hs2, out) := pump hs
    (hs2, out, hs2.buff = none)
  else
    let out := if hs.req_method = .NOTALLOWED then
        http_data_method_not_allowed post else []
    (hs, out, true)

/-! ### The connection event callback (`http_evt_cb`), POST-relevant part

The embedding covers the `ESP_CB_CONN_DATA_RECV` and `ESP_CB_CONN_CLOSED`
branches for a POST-enabled build with registered `post_start_fn`,
`post_data_fn` and `post_end_fn`.  The `send_response` call made when
`process_resp` turns true touches only response-side fields (none of the
fields this machine reads) and is modelled separately. -/

/-- Record of the user POST callbacks `http_evt_cb` invoked. -/
structure PostLog where
  /-- arguments of each `post_start_fn` call: (uri, content_length) -/
  starts : List (List Char × Nat) := []
  /-- pbuf contents of each `post_data_fn` call -/
  chunks : List (List Char) := []
  /-- number of `post_end_fn` calls -/
  endCalls : Nat := 0
  deriving DecidableEq, Repr

/-- `http_post_send_to_user` (`esp_http_server.c:292`-`306`):
`esp_pbuf_skip`/`esp_pbuf_advance` turn (pbuf, offset) into the suffix
from `offset`; nothing is sent when the offset is out of range (skip
returns NULL). -/
def http_post_send_to_user (log : PostLog) (pbuf : List Char)
    (offset : Nat) : PostLog :=
  if offset < pbuf.length then
    { log with chunks := log.chunks ++ [pbuf.drop offset] }
  else log

/-- The tail of the header-completion branch of `http_evt_cb`
(`esp_http_server.c:795`-`801`): once the method is classified, open and
prepare the response file unless the method is NOTALLOWED or the URI
failed to parse. -/
def http_open_resp_file (hi : HttpInit) (maxParams : Nat) (fs : FsEnv)
    (u : Option (List Char)) (hs : HttpState) : HttpState :=
  match u with
  | some uri =>
    if hs.req_method ≠ .NOTALLOWED then
      let r := http_get_file_from_uri hi maxParams fs uri
      { hs with resp_file_opened := r.resp_file_opened,
                resp_uri := r.uri, is_ssi := r.is_ssi }
    else hs
  | none => hs

/-- The `ESP_CB_CONN_DATA_RECV` branch of `http_evt_cb`
(`esp_http_server.c:626`-`803`): accumulate header bytes until CRLFCRLF,
then parse the URI, classify the method, extract `Content-Length`, start
the POST stream and push any body bytes already received; after the
headers, push each whole packet while the body is incomplete.  The
global `hi` is assumed non-NULL with all POST callbacks registered. -/
def http_evt_data_recv (maxUriLen maxParams : Nat) (hi : HttpInit)
    (fs : FsEnv) (hs : HttpState) (log : PostLog) (packet : List Char) :
    HttpState × PostLog :=
  if ¬ hs.headers_received then
    let p := hs.p ++ packet   -- first packet or esp_pbuf_cat
    match strfind p crlf2 0 with
    | none => ({ hs with p := p }, log)
    | some pos =>
      let hs := { hs with p := p, headers_received := true }
      let uriParsed := http_parse_uri maxUriLen p
      -- method dispatch
      let hl : HttpState × PostLog :=
        if strcmpAt p "POST ".data 0 then
          let data_pos := pos + 4
          let cl := parse_content_length p
          let hs := { hs with req_method := .POST, content_length := cl }
          if cl ≠ 0 then
            let log := { log with
              starts := log.starts ++ [(uriParsed.getD [], cl)] }
            let pbuf_total_len := p.length
            if pbuf_total_len - data_pos > 0 then
              let hs := { hs with
                content_received := pbuf_total_len - data_pos }
              let log := http_post_send_to_user log p data_pos
              if hs.content_received ≥ hs.content_length then
                ({ hs with process_resp := true },
                 { log with endCalls := log.endCalls + 1 })
              else (hs, log)
            else (hs, log)
          else ({ hs with process_resp := true }, log)
        else if strcmpAt p "GET ".data 0 then
          ({ hs with req_method := .GET, process_resp := true }, log)
        else
          ({ hs with req_method := .NOTALLOWED, process_resp := true }, log)
      -- open and prepare the response file
      (http_open_resp_file hi maxParams fs uriParsed hl.1, hl.2)
  else
    if hs.req_method = .POST then
      if hs.content_received < hs.content_length then
        let tot_len := packet.length
        let hs := { hs with content_received := hs.content_received + tot_len }
        let log := http_post_send_to_user log packet 0
        if hs.content_received ≥ hs.content_length then
          ({ hs with process_resp := true },
           { log with endCalls := log.endCalls + 1 })
        else (hs, log)
      else (hs, log)
    else (hs, log)   -- protocol violation: the pbuf is only freed

/-- The `ESP_CB_CONN_CLOSED` branch of `http_evt_cb`
(`esp_http_server.c:832`-`861`): an incomplete POST still gets its
`post_end_fn`; buffers and the file are released and the state freed. -/
def http_evt_closed (hs : HttpState) (log : PostLog) : PostLog :=
  if hs.req_method = .POST ∧ hs.content_received < hs.content_length then
    { log with endCalls := log.endCalls + 1 }
  else log

/-- Connection events the embedded callback handles for the POST claims. -/
inductive HttpEvt where
  | recv (packet : List Char)
  | closed

/-- Run a sequence of connection events through `http_evt_cb`. -/
def runHttpEvts (maxUriLen maxParams : Nat) (hi : HttpInit) (fs : FsEnv) :
    HttpState × PostLog → List HttpEvt → HttpState × PostLog
  | sl, [] => sl
  | (hs, log), (.recv pkt) :: evts =>
    runHttpEvts maxUriLen maxParams hi fs
      (http_evt_data_recv maxUriLen maxParams hi fs hs log pkt) evts
  | (hs, log), .closed :: evts =>
    runHttpEvts maxUriLen maxParams hi fs (hs, http_evt_closed hs log) evts

/-! ## SSI substitution (`send_response_ssi`, `esp_http_server.c:377`-`514`)

`HTTP_SSI_TAG_START`, `HTTP_SSI_TAG_END` and `HTTP_SSI_TAG_MAX_LEN` are
configuration macros from a header not among the provided sources
(spec section 8 scenario 6 instantiates them as `<!--#`, `-->`); they are
parameters here.  The embedding of the loop proper is
`ssiPumpLoop`/`send_response_ssi_pump`, which carries the
`conn_mem_available` credit accounting (including the credit gate of the
reset path at `esp_http_server.c:502`-`506`: the mismatching byte is
written and consumed only when credit remains after the tag-buffer
flush; otherwise it stays in the response buffer for the next
invocation) and records every `esp_conn_write` the pump issues.
`ssiStep`/`ssiRun` is the specialisation of those transitions to an
invocation whose credit never reaches zero; `ssiPumpLoop_ample` below
proves that whenever a `ssiPumpLoop` invocation ends with non-zero
credit its writes and final SSI sub-state are exactly those of
`ssiRun`, so the reference correspondence proved for `ssiRun` is a
theorem about the credit-accounted pump under that hypothesis. -/

/-- SSI tag-substitution configuration and the bytes `ssi_fn` writes
back (via `esp_http_server_write`) for a given tag name. -/
structure SsiCfg where
  tagStart : List Char
  tagEnd : List Char
  maxLen : Nat
  repl : List Char → List Char

/-- `http_ssi_state_t`. -/
inductive SsiSt where
  | WAIT_BEGIN
  | BEGIN
  | TAG
  | END
  deriving DecidableEq, Repr

/-- SSI sub-state of `http_state_t`: state, tag accumulator
(`ssi_tag_buff[0..ssi_tag_buff_ptr)`) and `ssi_tag_len`. -/
structure SsiM where
  st : SsiSt := .WAIT_BEGIN
  buff : List Char := []
  tagLen : Nat := 0
  deriving DecidableEq, Repr

/-- One character of the `send_response_ssi` loop under the condition
that no `esp_conn_write` of the invocation runs out of credit: returns
the new sub-state, the bytes written to the connection and the `ssi_fn`
invocations (tag names).  With credit remaining, the reset path
(`esp_http_server.c:489`-`507`) flushes the whole accumulated tag
buffer, then writes the mismatching byte itself and advances past it.
This is not the embedding of the loop — that is `ssiPumpLoop`, whose
reset path is credit-gated — but its proven ample-credit
specialisation: see `ssiPumpLoop_ample`. -/
def ssiStep (cfg : SsiCfg) (m : SsiM) (ch : Char) :
    SsiM × List Char × List (List Char) :=
  match m.st with
  | .WAIT_BEGIN =>
    if cfg.tagStart.get? 0 = some ch then
      ({ m with st := .BEGIN, buff := [ch] }, [], [])
    else
      ({ m with st := .WAIT_BEGIN, buff := [] }, m.buff ++ [ch], [])
  | .BEGIN =>
    if m.buff.length < cfg.tagStart.length ∧
        cfg.tagStart.get? m.buff.length = some ch then
      let buff := m.buff ++ [ch]
      if buff.length = cfg.tagStart.length then
        ({ m with st := .TAG, buff := buff, tagLen := 0 }, [], [])
      else ({ m with buff := buff }, [], [])
    else
      ({ m with st := .WAIT_BEGIN, buff := [] }, m.buff ++ [ch], [])
  | .TAG =>
    if cfg.tagEnd.get? 0 = some ch then
      ({ m with st := .END, buff := m.buff ++ [ch] }, [], [])
    else if m.buff.length - cfg.tagStart.length < cfg.maxLen then
      ({ m with buff := m.buff ++ [ch], tagLen := m.tagLen + 1 }, [], [])
    else
      ({ m with st := .WAIT_BEGIN, buff := [] }, m.buff ++ [ch], [])
  | .END =>
    let idx := m.buff.length - cfg.tagStart.length - m.tagLen
    if idx < cfg.tagEnd.length ∧ cfg.tagEnd.get? idx = some ch then
      let buff := m.buff ++ [ch]
      if buff.length = cfg.tagStart.length + m.tagLen + cfg.tagEnd.length then
        let name := (buff.drop cfg.tagStart.length).take m.tagLen
        (⟨.WAIT_BEGIN, [], 0⟩, cfg.repl name, [name])
      else ({ m with buff := buff }, [], [])
    else
      ({ m with st := .WAIT_BEGIN, buff := [] }, m.buff ++ [ch], [])

/-- Run the ample-credit SSI transitions over a byte list (equal to the
credit-accounted `ssiPumpLoop` whenever that invocation does not exhaust
its credit: `ssiPumpLoop_ample`). -/
def ssiRun (cfg : SsiCfg) : SsiM → List Char → SsiM × List Char × List (List Char)
  | m, [] => (m, [], [])
  | m, ch :: rest =>
    let (m1, o1, c1) := ssiStep cfg m ch
    let (m2, o2, c2) := ssiRun cfg m1 rest
    (m2, o1 ++ o2, c1 ++ c2)

/-- The claim's reading of the reset path: the tag buffer is flushed and
the mismatching byte is *re-processed* (so it may begin a new tag).  A
refinement-spec definition following the claim's words, for comparison
with `ssiStep`. -/
def claimSsiStep (cfg : SsiCfg) (m : SsiM) (ch : Char) :
    SsiM × List Char × List (List Char) :=
  -- re-processing a byte always lands in WAIT_BEGIN, which either starts
  -- a fresh tag with it or emits it
  let reprocess : SsiM × List Char × List (List Char) :=
    if cfg.tagStart.get? 0 = some ch then
      ({ m with st := .BEGIN, buff := [ch] }, m.buff, [])
    else
      ({ m with st := .WAIT_BEGIN, buff := [] }, m.buff ++ [ch], [])
  match m.st with
  | .WAIT_BEGIN =>
    if cfg.tagStart.get? 0 = some ch then
      ({ m with st := .BEGIN, buff := [ch] }, [], [])
    else reprocess
  | .BEGIN =>
    if m.buff.length < cfg.tagStart.length ∧
        cfg.tagStart.get? m.buff.length = some ch then
      let buff := m.buff ++ [ch]
      if buff.length = cfg.tagStart.length then
        ({ m with st := .TAG, buff := buff, tagLen := 0 }, [], [])
      else ({ m with buff := buff }, [], [])
    else reprocess
  | .TAG =>
    if cfg.tagEnd.get? 0 = some ch then
      ({ m with st := .END, buff := m.buff ++ [ch] }, [], [])
    else if m.buff.length - cfg.tagStart.length < cfg.maxLen then
      ({ m with buff := m.buff ++ [ch], tagLen := m.tagLen + 1 }, [], [])
    else reprocess
  | .END =>
    let idx := m.buff.length - cfg.tagStart.length - m.tagLen
    if idx < cfg.tagEnd.length ∧ cfg.tagEnd.get? idx = some ch then
      let buff := m.buff ++ [ch]
      if buff.length = cfg.tagStart.length + m.tagLen + cfg.tagEnd.length then
        let name := (buff.drop cfg.tagStart.length).take m.tagLen
        (⟨.WAIT_BEGIN, [], 0⟩, cfg.repl name, [name])
      else ({ m with buff := buff }, [], [])
    else reprocess

/-- Run of the claim-side (re-processing) machine. -/
def claimSsiRun (cfg : SsiCfg) :
    SsiM → List Char → SsiM × List Char × List (List Char)
  | m, [] => (m, [], [])
  | m, ch :: rest =>
    let (m1, o1, c1) := claimSsiStep cfg m ch
    let (m2, o2, c2) := claimSsiRun cfg m1 rest
    (m2, o1 ++ o2, c1 ++ c2)

/-! ### Declarative reference for the machine behaviour

`scanAttempt` classifies the head of the input as a complete tag, a
mismatch after `k` matched bytes, or input exhausted mid-tag; `ssiRef`
assembles the whole-run output from it. -/

/-- Result of scanning one tag attempt: a complete tag (name and rest of
input), a mismatch after `k` matched bytes of the attempt, or the input
ran out mid-attempt. -/
inductive TagScan where
  | complete (name rest : List Char)
  | failAt (k : Nat)
  | exhausted
  deriving DecidableEq, Repr

/-- Shift the matched-byte count of a `failAt` by the bytes already
consumed before the sub-scan. -/
def TagScan.shift (n : Nat) : TagScan → TagScan
  | .failAt k => .failAt (k + n)
  | r => r

/-- Scanner for the END phase: `j` bytes of the tag end already matched
(`1 ≤ j`).  Counts in `failAt` are local to `r`. -/
def scanEnd (cfg : SsiCfg) (name : List Char) (j : Nat) :
    List Char → TagScan
  | [] => .exhausted
  | c :: r =>
    if j < cfg.tagEnd.length ∧ cfg.tagEnd.get? j = some c then
      if j + 1 = cfg.tagEnd.length then .complete name r
      else (scanEnd cfg name (j + 1) r).shift 1
    else .failAt 0

/-- Scanner for the TAG phase accumulating the name. -/
def scanTag (cfg : SsiCfg) (name : List Char) : List Char → TagScan
  | [] => .exhausted
  | c :: r =>
    if cfg.tagEnd.get? 0 = some c then (scanEnd cfg name 1 r).shift 1
    else if name.length < cfg.maxLen then (scanTag cfg (name ++ [c]) r).shift 1
    else .failAt 0

/-- Scanner for the BEGIN phase: `k` bytes of the tag start matched
(`1 ≤ k`; the machine checks completion only after a BEGIN-state match,
so a 1-byte tag start never completes — mirrored here). -/
def scanStart (cfg : SsiCfg) (k : Nat) : List Char → TagScan
  | [] => .exhausted
  | c :: r =>
    if k < cfg.tagStart.length ∧ cfg.tagStart.get? k = some c then
      if k + 1 = cfg.tagStart.length then (scanTag cfg [] r).shift 1
      else (scanStart cfg (k + 1) r).shift 1
    else .failAt 0

/-- Scan one tag attempt at the head of `l`; in `failAt k`, `k` bytes of
`l` matched and `l.get k` caused the mismatch. -/
def scanAttempt (cfg : SsiCfg) : List Char → TagScan
  | [] => .exhausted
  | c :: r =>
    if cfg.tagStart.get? 0 = some c then (scanStart cfg 1 r).shift 1
    else .failAt 0

/-- Declarative whole-run reference: output bytes, `ssi_fn` calls and
pending (still-buffered) tail.  A complete tag contributes its
replacement; a mismatch after `k` matched bytes emits those bytes plus
the mismatching byte verbatim (all consumed); an exhausted attempt leaves
the tail pending in the tag buffer. -/
def ssiRef (cfg : SsiCfg) : Nat → List Char →
    List Char × List (List Char) × List Char
  | 0, l => ([], [], l)
  | _, [] => ([], [], [])
  | fuel + 1, l =>
    match scanAttempt cfg l with
    | .complete name rest =>
      let (o, cs, pend) := ssiRef cfg fuel rest
      (cfg.repl name ++ o, name :: cs, pend)
    | .failAt k =>
      let (o, cs, pend) := ssiRef cfg fuel (l.drop (k + 1))
      (l.take (k + 1) ++ o, cs, pend)
    | .exhausted => ([], [], l)

/-- Correspondence between a machine run from a mid-attempt state `m`
and the scan result of the remaining input `r`: a completed tag invokes
`ssi_fn` and restarts clean; a mismatch after `k` bytes emits the buffer
plus the mismatching byte and continues after it (with the dead
`ssi_tag_len` field at some value); an exhausted input leaves everything
buffered. -/
def AttemptInv (cfg : SsiCfg) (m : SsiM) (res : TagScan)
    (r : List Char) : Prop :=
  match res with
  | .complete nm rest =>
    ssiRun cfg m r =
      ((ssiRun cfg ⟨.WAIT_BEGIN, [], 0⟩ rest).1,
       cfg.repl nm ++ (ssiRun cfg ⟨.WAIT_BEGIN, [], 0⟩ rest).2.1,
       nm :: (ssiRun cfg ⟨.WAIT_BEGIN, [], 0⟩ rest).2.2)
  | .failAt k =>
    ∃ tl, ssiRun cfg m r =
      ((ssiRun cfg ⟨.WAIT_BEGIN, [], tl⟩ (r.drop (k + 1))).1,
       (m.buff ++ r.take (k + 1)) ++
         (ssiRun cfg ⟨.WAIT_BEGIN, [], tl⟩ (r.drop (k + 1))).2.1,
       (ssiRun cfg ⟨.WAIT_BEGIN, [], tl⟩ (r.drop (k + 1))).2.2)
  | .exhausted =>
    (ssiRun cfg m r).2.1 = [] ∧ (ssiRun cfg m r).2.2 = [] ∧
    (ssiRun cfg m r).1.buff = m.buff ++ r

/-! ### The credit-accounted pump (`send_response_ssi` proper) -/

/-- One `esp_conn_write` issued by the pump: whether it came from
`ssi_fn` through `esp_http_server_write`, the bytes handed over, and the
`conn_mem_available` credit at the moment of the call. -/
structure WriteRec where
  fromSsiFn : Bool
  bytes : List Char
  availBefore : Nat
  deriving DecidableEq, Repr

/-- Pump-visible state: SSI sub-state plus `ssi_tag_buff_written`,
`conn_mem_available`, `written_total` and the read cursor into the
response buffer. -/
structure PumpState where
  ssi : SsiM := {}
  ssi_tag_buff_written : Nat := 0
  conn_mem_available : Nat := 0
  written_total : Nat := 0
  deriving DecidableEq, Repr

/-- Modelled from the spec (section 4.5): `esp_conn_write` appends to the
per-connection staging buffer and reports the remaining credit through
its out-parameter; the model debits the credit (floored at zero) and
records the call. -/
def conn_write (w : List WriteRec) (avail : Nat) (fromSsi : Bool)
    (bytes : List Char) : List WriteRec × Nat :=
  (w ++ [{ fromSsiFn := fromSsi, bytes := bytes, availBefore := avail }],
   avail - bytes.length)

/-- `esp_http_server_write` (`esp_http_server.c:908`-`913`): hands the
full `len` bytes to `esp_conn_write` (no clamping against
`conn_mem_available`) and counts them into `written_total`. -/
def esp_http_server_write (ps : PumpState) (w : List WriteRec)
    (data : List Char) : PumpState × List WriteRec :=
  let (w, avail) := conn_write w ps.conn_mem_available true data
  ({ ps with conn_mem_available := avail,
             written_total := ps.written_total + data.length }, w)

/-- The `switch (hs->ssi_state)` of the pump loop
(`esp_http_server.c:421`-`487`): the accepting transitions of the SSI
sub-state on one byte; `none` plays `reset = 1`. -/
def pumpAccept (cfg : SsiCfg) (ssi : SsiM) (ch : Char) : Option SsiM :=
  match ssi.st with
  | .WAIT_BEGIN =>
    if cfg.tagStart.get? 0 = some ch then
      some { ssi with st := .BEGIN, buff := [ch] }
    else none
  | .BEGIN =>
    if ssi.buff.length < cfg.tagStart.length ∧
        cfg.tagStart.get? ssi.buff.length = some ch then
      let buff := ssi.buff ++ [ch]
      if buff.length = cfg.tagStart.length then
        some { ssi with st := .TAG, buff := buff, tagLen := 0 }
      else some { ssi with buff := buff }
    else none
  | .TAG =>
    if cfg.tagEnd.get? 0 = some ch then
      some { ssi with st := .END, buff := ssi.buff ++ [ch] }
    else if ssi.buff.length - cfg.tagStart.length < cfg.maxLen then
      some { ssi with buff := ssi.buff ++ [ch],
                      tagLen := ssi.tagLen + 1 }
    else none
  | .END =>
    let idx := ssi.buff.length - cfg.tagStart.length - ssi.tagLen
    if idx < cfg.tagEnd.length ∧ cfg.tagEnd.get? idx = some ch then
      some { ssi with buff := ssi.buff ++ [ch] }
    else none

/-- The per-byte loop of `send_response_ssi`
(`esp_http_server.c:419`-`511`) with credit accounting, over the
remaining response-buffer bytes.  The loop stops when the buffer is
exhausted or `conn_mem_available` reaches zero; on a tag mismatch it
flushes `min(ssi_tag_buff_ptr, conn_mem_available)` buffered bytes from
index 0, records the flushed count in `ssi_tag_buff_written`, and writes
the current byte only if credit remains (otherwise the byte stays for
the next pump invocation). -/
def ssiPumpLoop (cfg : SsiCfg) :
    List Char → PumpState → List WriteRec → PumpState × List WriteRec
  | [], ps, w => (ps, w)
  | ch :: rest, ps, w =>
    if ps.conn_mem_available = 0 then (ps, w)
    else
      match pumpAccept cfg ps.ssi ch with
      | some m1 =>
        -- completed tag? (only the END-state branch checks this and
        -- calls ssi_fn)
        if ps.ssi.st = .END ∧
            m1.buff.length =
              cfg.tagStart.length + m1.tagLen + cfg.tagEnd.length then
          let name := (m1.buff.drop cfg.tagStart.length).take m1.tagLen
          let (ps2, w2) := esp_http_server_write
            { ps with ssi := ⟨.WAIT_BEGIN, [], 0⟩ } w (cfg.repl name)
          ssiPumpLoop cfg rest ps2 w2
        else
          ssiPumpLoop cfg rest { ps with ssi := m1 } w
      | none =>
        -- reset: flush what fits of the tag buffer, then the current byte
        let (ps1, w1) :=
          if ps.ssi.buff.length ≠ 0 then
            let len := min ps.ssi.buff.length ps.conn_mem_available
            let (w1, avail) := conn_write w ps.conn_mem_available false
              (ps.ssi.buff.take len)
            let buff1 := if len = ps.ssi.buff.length then [] else ps.ssi.buff
            ({ ps with conn_mem_available := avail,
                       written_total := ps.written_total + len,
                       ssi_tag_buff_written := len,
                       ssi := { ps.ssi with buff := buff1 } }, w1)
          else (ps, w)
        if ps1.conn_mem_available ≠ 0 then
          let (w2, avail) := conn_write w1 ps1.conn_mem_available false [ch]
          ssiPumpLoop cfg rest
            { ps1 with conn_mem_available := avail,
                       written_total := ps1.written_total + 1,
                       ssi := { ps1.ssi with st := .WAIT_BEGIN } } w2
        else
          ({ ps1 with ssi := { ps1.ssi with st := .WAIT_BEGIN } }, w1)

/-- One invocation of `send_response_ssi` (`esp_http_server.c:377`-`514`)
for an already-loaded response buffer: query the available credit, flush
the pending part of the tag buffer (resuming at
`ssi_tag_buff_written`), run the loop over the remaining buffer bytes,
then issue the zero-length flush call.  `read_resp_file` is modelled
separately and does not write to the connection. -/
def send_response_ssi_pump (cfg : SsiCfg) (credit : Nat)
    (remaining : List Char) (ps : PumpState) : PumpState × List WriteRec :=
  -- esp_conn_write(conn, NULL, 0, 0, &conn_mem_available): credit query
  let w := (conn_write [] ps.conn_mem_available false []).1
  let ps := { ps with conn_mem_available := credit }
  -- pending tag-buffer bytes from a previous pump run
  let pw :=
    if ps.ssi_tag_buff_written < ps.ssi.buff.length then
      let len := min (ps.ssi.buff.length - ps.ssi_tag_buff_written)
        ps.conn_mem_available
      if len ≠ 0 then
        let wr := conn_write w ps.conn_mem_available false
          ((ps.ssi.buff.drop ps.ssi_tag_buff_written).take len)
        let written := ps.ssi_tag_buff_written + len
        let buff := if written = ps.ssi.buff.length then [] else ps.ssi.buff
        ({ ps with conn_mem_available := wr.2,
                   written_total := ps.written_total + len,
                   ssi_tag_buff_written := written,
                   ssi := { ps.ssi with buff := buff } }, wr.1)
      else (ps, w)
    else (ps, w)
  let res := ssiPumpLoop cfg remaining pw.1 pw.2
  -- esp_conn_write(conn, NULL, 0, 1, &conn_mem_available): flush
  let wr := conn_write res.2 res.1.conn_mem_available false []
  ({ res.1 with conn_mem_available := wr.2 }, wr.1)

/-! ## Theorems -/

theorem firstMatch_isPrefixOf {hay needle : List Char} {i : Nat}
    (h : firstMatch hay needle = some i) :
    needle.isPrefixOf (hay.drop i) = true := by
  induction hay generalizing i with
  | nil =>
    unfold firstMatch at h
    split at h
    · cases h
      simpa [List.isEmpty_iff] using ‹needle.isEmpty = true›
    · cases h
  | cons c t ih =>
    unfold firstMatch at h
    split at h
    · cases h; simpa using ‹needle.isPrefixOf (c :: t) = true›
    · rcases Option.map_eq_some'.mp h with ⟨j, hj, rfl⟩
      simpa using ih hj

theorem firstMatch_min {hay needle : List Char} {i : Nat}
    (h : firstMatch hay needle = some i) :
    ∀ j < i, ¬ needle.isPrefixOf (hay.drop j) = true := by
  induction hay generalizing i with
  | nil =>
    unfold firstMatch at h
    split at h
    · cases h; intro j hj; omega
    · cases h
  | cons c t ih =>
    unfold firstMatch at h
    split at h
    · cases h; intro j hj; omega
    · rcases Option.map_eq_some'.mp h with ⟨k, hk, rfl⟩
      intro j hj
      cases j with
      | zero => simpa using ‹¬ needle.isPrefixOf (c :: t) = true›
      | succ j' =>
        have := ih hk j' (by omega)
        simpa using this

theorem firstMatch_none {hay needle : List Char}
    (h : firstMatch hay needle = none) :
    ∀ j, ¬ needle.isPrefixOf (hay.drop j) = true := by
  induction hay with
  | nil =>
    intro j
    unfold firstMatch at h
    split at h
    · cases h
    · intro hcontra
      have : needle = [] :=
        List.eq_nil_of_prefix_nil (List.isPrefixOf_iff_prefix.mp (by simpa using hcontra))
      subst this
      simp [List.isEmpty_iff] at *
  | cons c t ih =>
    intro j
    unfold firstMatch at h
    split at h
    · cases h
    · cases j with
      | zero => simpa using ‹¬ needle.isPrefixOf (c :: t) = true›
      | succ j' =>
        have : firstMatch t needle = none := by
          cases hfm : firstMatch t needle with
          | none => rfl
          | some k => rw [hfm] at h; cases h
        simpa using ih this j'

theorem firstMatch_of_spec {hay needle : List Char} {i : Nat}
    (hpre : needle.isPrefixOf (hay.drop i) = true)
    (hmin : ∀ j < i, ¬ needle.isPrefixOf (hay.drop j) = true) :
    firstMatch hay needle = some i := by
  cases h : firstMatch hay needle with
  | none => exact absurd hpre (firstMatch_none h i)
  | some k =>
    have hk := firstMatch_isPrefixOf h
    rcases Nat.lt_trichotomy k i with hlt | rfl | hgt
    · exact absurd hk (hmin k hlt)
    · rfl
    · exact absurd hpre (firstMatch_min h i hgt)

/-- A prefix that fits inside the left part of an append is a prefix of
the left part. -/
theorem prefix_of_append_of_length_le {needle l s : List Char}
    (h : needle <+: l ++ s) (hlen : needle.length ≤ l.length) :
    needle <+: l := by
  have h1 : needle = (l ++ s).take needle.length := List.prefix_iff_eq_take.mp h
  rw [List.take_append_of_le_length hlen] at h1
  rw [h1]
  exact List.take_prefix _ _

/-- A match survives appending a suffix to the haystack. -/
theorem isPrefixOf_drop_append {l s needle : List Char} {i : Nat}
    (h : needle.isPrefixOf (l.drop i) = true) :
    needle.isPrefixOf ((l ++ s).drop i) = true := by
  rcases le_or_lt i l.length with hle | hlt
  · rw [List.drop_append_of_le_length hle]
    exact List.isPrefixOf_iff_prefix.mpr (List.isPrefixOf_iff_prefix.mp h |>.trans
      (List.prefix_append _ _))
  · have : l.drop i = [] := List.drop_eq_nil_of_le (le_of_lt hlt)
    rw [this] at h
    have : needle = [] := List.eq_nil_of_prefix_nil (List.isPrefixOf_iff_prefix.mp h)
    subst this
    simp [List.isPrefixOf_iff_prefix]

/-- If the first occurrence in `l` fits entirely inside `l`, then it is
also the first occurrence in `l ++ s`. -/
theorem firstMatch_append {l s needle : List Char} {i : Nat}
    (h : firstMatch l needle = some i)
    (hfit : i + needle.length ≤ l.length) :
    firstMatch (l ++ s) needle = some i := by
  apply firstMatch_of_spec
  · exact isPrefixOf_drop_append (firstMatch_isPrefixOf h)
  · intro j hj hcontra
    apply firstMatch_min h j hj
    have hdrop : (l ++ s).drop j = l.drop j ++ s := by
      rw [List.drop_append_of_le_length (by omega)]
    rw [hdrop] at hcontra
    rw [List.isPrefixOf_iff_prefix] at hcontra ⊢
    have hlen : needle.length ≤ (l.drop j).length := by
      rw [List.length_drop]; omega
    exact prefix_of_append_of_length_le hcontra hlen

theorem firstMatch_le_length {hay needle : List Char} {i : Nat}
    (h : firstMatch hay needle = some i) : i ≤ hay.length := by
  induction hay generalizing i with
  | nil =>
    unfold firstMatch at h
    split at h
    · cases h; simp
    · cases h
  | cons c t ih =>
    unfold firstMatch at h
    split at h
    · cases h; simp
    · rcases Option.map_eq_some'.mp h with ⟨j, hj, rfl⟩
      have := ih hj
      simp
      omega

/-- No occurrence of the needle exists in a prefix of `l` that is shorter
than the end of the first occurrence. -/
theorem firstMatch_take_none {l needle : List Char} {i : Nat}
    (h : firstMatch l needle = some i) {n : Nat}
    (hn : n < i + needle.length) :
    firstMatch (l.take n) needle = none := by
  cases hfm : firstMatch (l.take n) needle with
  | none => rfl
  | some j =>
    exfalso
    have hj := firstMatch_isPrefixOf hfm
    have hjle : j ≤ (l.take n).length := firstMatch_le_length hfm
    have hjfit : j + needle.length ≤ (l.take n).length := by
      rw [List.isPrefixOf_iff_prefix] at hj
      have := hj.length_le
      rw [List.length_drop] at this
      omega
    have hpre : needle.isPrefixOf (l.drop j) = true := by
      rw [List.isPrefixOf_iff_prefix] at hj ⊢
      have hsub : (l.take n).drop j <+: l.drop j := by
        rw [List.drop_take]
        exact List.take_prefix _ _
      exact hj.trans hsub
    have hji : j < i := by
      have hle : (l.take n).length ≤ n := by
        rw [List.length_take]; omega
      omega
    exact firstMatch_min h j hji hpre

/-- C2 counterexample: `send_msg_to_producer_queue` waits on the
completion semaphore with timeout argument `0000` (wait forever), not
`block_time`.  With `block_time = 5` and a pipeline that completes at
time 6, the call waits until time 6 (beyond the claimed bound) and the
caller receives the message's result, not `espERR`. -/
theorem send_msg_block_time_not_a_bound :
    let env : PipeEnv :=
      { semCreateOk := true, putnowOk := true, doneAt := 6, doneRes := .espOK }
    let o := send_msg_to_producer_queue esp_reset_msg 5 env
    o.semWaitTimeoutArg = some 0 ∧ o.waitedUntil = some 6 ∧ ¬ (6 ≤ 5) ∧
      o.res ≠ Espr.espERR := by
  decide

/-- C2 (amended): a blocking call (`block_time ≠ 0`, semaphore created)
passes the literal timeout `0` (wait indefinitely) to the semaphore wait
regardless of `block_time`; the caller waits until the pipeline resolves
the message and receives the result code stored in the message, and the
command stays in the pipeline (it was enqueued and is never cancelled). -/
theorem send_msg_blocking_waits_forever (msg : EspMsg) (block_time : Nat)
    (env : PipeEnv) (hb : block_time ≠ 0) (hsem : env.semCreateOk = true) :
    let o := send_msg_to_producer_queue msg block_time env
    o.semWaitTimeoutArg = some 0 ∧ o.waitedUntil = some env.doneAt ∧
      o.res = env.doneRes ∧ o.enqueued = true := by
  simp only [send_msg_to_producer_queue, if_pos hb, hsem]
  simp

theorem send_msg_blocking_waits_forever_witness :
    let env : PipeEnv :=
      { semCreateOk := true, putnowOk := true, doneAt := 42, doneRes := .espTIMEOUT }
    let o := send_msg_to_producer_queue esp_reset_msg 7 env
    o.semWaitTimeoutArg = some 0 ∧ o.waitedUntil = some 42 ∧
      o.res = Espr.espTIMEOUT ∧ o.enqueued = true :=
  send_msg_blocking_waits_forever esp_reset_msg 7 _ (by decide) rfl

/-- C7: a non-blocking API call returns `espOK` exactly when the message
was enqueued on the producer queue; allocation failure or a full queue
yield `espERR`; a blocking call (allocation and semaphore creation
succeeding) returns the result code the pipeline stored in the message. -/
theorem api_call_result_policy (msg : EspMsg) (env : PipeEnv)
    (allocOk : Bool) (bt : Nat) :
    ((api_call allocOk msg 0 env).res = Espr.espOK ↔
      (api_call allocOk msg 0 env).enqueued = true) ∧
    (allocOk = false ∨ env.putnowOk = false →
      (api_call allocOk msg 0 env).res = Espr.espERR) ∧
    (bt ≠ 0 → allocOk = true → env.semCreateOk = true →
      (api_call allocOk msg bt env).res = env.doneRes) := by
  refine ⟨?_, ?_, ?_⟩
  · cases allocOk <;> cases hput : env.putnowOk <;>
      simp [api_call, send_msg_to_producer_queue, hput]
  · rintro (rfl | hput)
    · simp [api_call]
    · cases allocOk <;> simp [api_call, send_msg_to_producer_queue, hput]
  · intro hbt hal hsem
    subst hal
    simp [api_call, send_msg_to_producer_queue, if_pos hbt, hsem]

theorem api_call_result_policy_witness :
    let env : PipeEnv :=
      { semCreateOk := true, putnowOk := true, doneAt := 0, doneRes := .espOK }
    (api_call true esp_reset_msg 3 env).res = Espr.espOK :=
  (api_call_result_policy esp_reset_msg _ true 3).2.2 (by decide) rfl rfl

/-- C9: `esp_init` hands the pipeline, in order, RESET, WIFI_CWMODE,
CIPMUX, CIPDINFO, CIPSTATUS; together with a following
`esp_sta_join("ssid","pw",NULL,1,...)` the serialised trace (each unit's
AT bytes answered by `OK` before the next unit starts) begins with the
six expected units. -/
theorem esp_init_join_trace :
    esp_init_msgs.map (·.cmd_def) =
      [EspCmd.RESET, .WIFI_CWMODE, .TCPIP_CIPMUX, .TCPIP_CIPDINFO,
       .TCPIP_CIPSTATUS] ∧
    pipelineTrace (esp_init_msgs ++ [esp_sta_join_msg "ssid".data "pw".data 1]) =
      [("AT+RST\r\n".data, "OK\r\n".data),
       ("AT+CWMODE_CUR=1\r\n".data, "OK\r\n".data),
       ("AT+CIPMUX=1\r\n".data, "OK\r\n".data),
       ("AT+CIPDINFO=1\r\n".data, "OK\r\n".data),
       ("AT+CIPSTATUS\r\n".data, "OK\r\n".data),
       ("AT+CWJAP_CUR=\"ssid\",\"pw\"\r\n".data, "OK\r\n".data)] := by
  constructor
  · rfl
  · rfl

/-- C1: the index-filename array of the source concatenates
`"/index.shtm"` and `"/index.ssi"` (missing comma), so only four names
are probed for `/` and a file provider exposing exactly `/index.ssi`
never gets it opened: the request falls through to the 404 list and no
file opens. -/
theorem http_index_filenames_concatenated :
    http_index_filenames.length = 4 ∧
    http_index_filenames.get? 1 = some ("/index.shtm/index.ssi".data) ∧
    "/index.ssi".data ∉ http_index_filenames ∧
    (http_get_file_from_uri {} 16 ⟨fun p => p == "/index.ssi".data⟩
        "/".data).resp_file_opened = false := by
  refine ⟨rfl, rfl, by decide, by decide⟩

/-- C6: a completed request line that starts with neither `"GET "` nor
`"POST "` records method NOTALLOWED with `process_resp` set and no
response file; on such a state the response pump emits the fixed 405
response (whose `Allow` header lists GET and, with POST compiled in,
POST) and closes the connection. -/
theorem method_not_allowed_flow (maxUriLen maxParams : Nat)
    (hi : HttpInit) (fs : FsEnv)
    (pump : HttpState → HttpState × List Char) (pkt : List Char)
    (hhdr : (strfind pkt crlf2 0).isSome)
    (hpost : strcmpAt pkt "POST ".data 0 = false)
    (hget : strcmpAt pkt "GET ".data 0 = false) :
    (http_evt_data_recv maxUriLen maxParams hi fs {} {} pkt).1.req_method =
      HttpMethod.NOTALLOWED ∧
    (http_evt_data_recv maxUriLen maxParams hi fs {} {} pkt).1.process_resp =
      true ∧
    (http_evt_data_recv maxUriLen maxParams hi fs {} {}
      pkt).1.resp_file_opened = false ∧
    (∀ hs : HttpState, hs.req_method = .NOTALLOWED → hs.process_resp = true →
      hs.resp_file_opened = false → hs.written_total = 0 →
      send_response true pump hs = (hs, http_data_method_not_allowed true, true)) ∧
    http_data_method_not_allowed true =
      ("HTTP/1.1 405 Method Not Allowed\r\nConnection: close" ++
        "\r\nAllow: GET, POST\r\n\r\n").data ∧
    http_data_method_not_allowed false =
      ("HTTP/1.1 405 Method Not Allowed\r\nConnection: close" ++
        "\r\nAllow: GET\r\n\r\n").data := by
  rcases Option.isSome_iff_exists.mp hhdr with ⟨pos, hpos⟩
  have hrecv :
      (http_evt_data_recv maxUriLen maxParams hi fs {} {} pkt).1 =
        { p := pkt, headers_received := true, req_method := .NOTALLOWED,
          process_resp := true } := by
    simp only [http_evt_data_recv]
    simp only [show (({} : HttpState)).headers_received = false from rfl,
      Bool.not_false, List.nil_append, hpos]
    simp only [hpost, hget, Bool.false_eq_true, if_false]
    cases h : http_parse_uri maxUriLen pkt <;> simp [h, http_open_resp_file]
  refine ⟨by rw [hrecv], by rw [hrecv], by rw [hrecv], ?_, by decide, by decide⟩
  intro hs hm hp hf hw
  simp [send_response, hm, hp, hf, hw]

theorem method_not_allowed_flow_witness :
    (http_evt_data_recv 256 16 {} ⟨fun _ => false⟩ {} {}
        "PUT / HTTP/1.0\r\n\r\n".data).1.req_method =
      HttpMethod.NOTALLOWED :=
  (method_not_allowed_flow 256 16 {} ⟨fun _ => false⟩ (fun h => (h, []))
    "PUT / HTTP/1.0\r\n\r\n".data (by decide) (by decide) (by decide)).1

theorem allocAttemptsAux_head (fuel len : Nat) :
    (allocAttemptsAux fuel len).head? = some len := by
  cases fuel with
  | zero => rfl
  | succ fuel => unfold allocAttemptsAux; split <;> rfl

theorem allocAttempts_head (len : Nat) :
    (allocAttempts len).head? = some len :=
  allocAttemptsAux_head len len

theorem allocAttemptsAux_chain (fuel : Nat) :
    ∀ len, len ≤ fuel →
      List.Chain' (fun a b => b = a / 2 ∧ 64 < b) (allocAttemptsAux fuel len) := by
  induction fuel with
  | zero =>
    intro len hlen
    interval_cases len
    simp [allocAttemptsAux]
  | succ fuel ih =>
    intro len hlen
    unfold allocAttemptsAux
    split
    · rename_i hgt
      rw [List.chain'_cons']
      refine ⟨?_, ih (len / 2) (by omega)⟩
      intro b hb
      rw [allocAttemptsAux_head] at hb
      cases hb
      exact ⟨rfl, hgt⟩
    · simp

theorem allocAttempts_chain (len : Nat) :
    List.Chain' (fun a b => b = a / 2 ∧ 64 < b) (allocAttempts len) :=
  allocAttemptsAux_chain len len le_rfl

theorem allocAttemptsAux_halving_complete (fuel : Nat) :
    ∀ len, len ≤ fuel → ∀ a ∈ allocAttemptsAux fuel len, 64 < a / 2 →
      a / 2 ∈ allocAttemptsAux fuel len := by
  induction fuel with
  | zero =>
    intro len hlen a ha hgt
    interval_cases len
    simp [allocAttemptsAux] at ha
    omega
  | succ fuel ih =>
    intro len hlen a ha hgt
    rw [allocAttemptsAux] at ha ⊢
    split at ha
    · rename_i hcond
      rw [if_pos hcond]
      rcases List.mem_cons.mp ha with rfl | ha
      · exact List.mem_cons_of_mem _
          (List.mem_of_mem_head? (allocAttemptsAux_head fuel (a / 2)))
      · exact List.mem_cons_of_mem _ (ih (len / 2) (by omega) a ha hgt)
    · rename_i hcond
      rcases List.mem_singleton.mp ha with rfl
      exact absurd hgt hcond

theorem allocAttempts_halving_complete (len : Nat) :
    ∀ a ∈ allocAttempts len, 64 < a / 2 → a / 2 ∈ allocAttempts len :=
  allocAttemptsAux_halving_complete len len le_rfl

/-- C8: for a dynamic (non-static) response file with bytes remaining,
`read_resp_file` requests a buffer of `min(remaining,
ESP_CFG_CONN_MAX_DATA_LEN)` bytes and, on each allocation failure, halves
the request while the halved size still exceeds 64, giving up below
that; the buffer obtained is the first size the allocator grants (a
zero-byte read still releases it); and when the pump leaves no buffer,
`send_response` closes the connection. -/
theorem read_resp_file_alloc_policy (env : FileEnv) (maxDataLen : Nat)
    (hs : HttpState) (hopen : hs.resp_file_opened = true)
    (hrem : env.remaining ≠ 0) (hstat : env.is_static = false) :
    (allocAttempts (min env.remaining maxDataLen)).head? =
      some (min env.remaining maxDataLen) ∧
    List.Chain' (fun a b => b = a / 2 ∧ 64 < b)
      (allocAttempts (min env.remaining maxDataLen)) ∧
    (∀ a ∈ allocAttempts (min env.remaining maxDataLen), 64 < a / 2 →
      a / 2 ∈ allocAttempts (min env.remaining maxDataLen)) ∧
    (match (allocAttempts (min env.remaining maxDataLen)).find? env.allocOk with
     | some s =>
       (read_resp_file env maxDataLen hs).buff_len = s ∧
       ((read_resp_file env maxDataLen hs).buff ≠ none ↔ env.readOk = true)
     | none => (read_resp_file env maxDataLen hs).buff = none) ∧
    (∀ (post : Bool) (pump : HttpState → HttpState × List Char)
        (hs2 : HttpState),
      hs2.process_resp = true → hs2.written_total = hs2.sent_total →
      hs2.resp_file_opened = true → (pump hs2).1.buff = none →
      (send_response post pump hs2).2.2 = true) := by
  refine ⟨allocAttempts_head _, allocAttempts_chain _,
    allocAttempts_halving_complete _, ?_, ?_⟩
  · have hread : read_resp_file env maxDataLen hs =
        (let hs := { hs with buff_ptr := 0, buff := none }
         let len0 := min env.remaining maxDataLen
         match (allocAttempts len0).find? env.allocOk with
         | some s =>
           if env.readOk then
             { hs with buff := some (env.chunk s), buff_len := s }
           else { hs with buff := none, buff_len := s }
         | none => hs) := by
      unfold read_resp_file
      rw [hopen]
      simp only [hrem, hstat]
      simp
    rw [hread]
    cases hfind : (allocAttempts (min env.remaining maxDataLen)).find?
        env.allocOk with
    | none => simp only [hfind]
    | some s => simp only [hfind]; cases hro : env.readOk <;> simp [hro]
  · intro post pump hs2 hp hw ho hb
    have hbuff : (pump hs2).1.buff = none := hb
    simp [send_response, hp, hw, ho]
    exact hbuff

theorem read_resp_file_alloc_policy_witness :
    (read_resp_file
      { remaining := 200, is_static := false,
        allocOk := fun s => decide (s = 100), readOk := true,
        chunk := fun _ => [] } 2048 { resp_file_opened := true }).buff_len =
      100 := by
  have h := read_resp_file_alloc_policy
    { remaining := 200, is_static := false,
      allocOk := fun s => decide (s = 100), readOk := true,
      chunk := fun _ => [] } 2048 { resp_file_opened := true } rfl
    (by decide) rfl
  obtain ⟨-, -, -, h4, -⟩ := h
  rw [show (allocAttempts (min 200 2048)).find?
      (fun s => decide (s = 100)) = some 100 from by decide] at h4
  exact h4.1

/-- C10: the message built by `esp_conn_start` carries definitive command
CIPSTART while its initial command field is CIPSTATUS, so the effective
command when the message enters the pipeline is CIPSTATUS and the first
AT unit emitted for it is the status query. -/
theorem esp_conn_start_initial_cmd (host : List Char) (port : Nat)
    (bt : Nat) (env : PipeEnv) :
    (esp_conn_start_msg host port).cmd_def = EspCmd.TCPIP_CIPSTART ∧
    (esp_conn_start_msg host port).cmd = some EspCmd.TCPIP_CIPSTATUS ∧
    (send_msg_to_producer_queue (esp_conn_start_msg host port) bt env).effCmd =
      EspCmd.TCPIP_CIPSTATUS ∧
    atText (esp_conn_start_msg host port) = "AT+CIPSTATUS\r\n".data := by
  refine ⟨rfl, rfl, ?_, rfl⟩
  unfold send_msg_to_producer_queue
  split <;> split <;> rfl

/-- C4 counterexample: with ample credit (here 100), the byte that
causes an SSI tag mismatch is written out and consumed, not
re-processed.  On `<<!--#N-->` (tag start `<!--#`, tag end `-->`) the
pump flushes the first `<`, emits the second `<` verbatim, and never
recognises the well-formed tag `<!--#N-->` that starts there: the whole
input comes out verbatim with no `ssi_fn` write, while the claim's
unconditional re-processing reading yields `<` followed by the
replacement.  The claim's reading does match the zero-credit schedule:
with credit 1, the flush of the first `<` exhausts the credit, the
second `<` is left unconsumed in `WAIT_BEGIN`, and the next invocation
(fed the unconsumed suffix) substitutes the tag — the two schedules
emit different byte streams, so the claim's schedule-independent
phrasing is refuted by the ample-credit run. -/
theorem ssi_mismatch_byte_not_reprocessed :
    let cfg : SsiCfg := { tagStart := "<!--#".data, tagEnd := "-->".data,
                          maxLen := 8, repl := fun _ => "R".data }
    (((send_response_ssi_pump cfg 100 "<<!--#N-->".data {}).2.map
        WriteRec.bytes).flatten = "<<!--#N-->".data ∧
      (send_response_ssi_pump cfg 100 "<<!--#N-->".data {}).2.filter
        (fun r => r.fromSsiFn) = []) ∧
    ((claimSsiRun cfg {} "<<!--#N-->".data).2.1 = "<R".data ∧
      (claimSsiRun cfg {} "<<!--#N-->".data).2.2 = [['N']]) ∧
    (((send_response_ssi_pump cfg 1 "<<!--#N-->".data {}).2.map
        WriteRec.bytes).flatten = "<".data ∧
      (send_response_ssi_pump cfg 1 "<<!--#N-->".data {}).1.ssi.st =
        SsiSt.WAIT_BEGIN ∧
      ((send_response_ssi_pump cfg 100 "<!--#N-->".data
          (send_response_ssi_pump cfg 1 "<<!--#N-->".data {}).1).2.map
        WriteRec.bytes).flatten = "R".data) := by
  decide

theorem ssiRun_cons (cfg : SsiCfg) (m : SsiM) (c : Char) (rest : List Char) :
    ssiRun cfg m (c :: rest) =
      ((ssiRun cfg (ssiStep cfg m c).1 rest).1,
       (ssiStep cfg m c).2.1 ++ (ssiRun cfg (ssiStep cfg m c).1 rest).2.1,
       (ssiStep cfg m c).2.2 ++ (ssiRun cfg (ssiStep cfg m c).1 rest).2.2) := by
  rcases h1 : ssiStep cfg m c with ⟨m1, o1, c1⟩
  rcases h2 : ssiRun cfg m1 rest with ⟨m2, o2, c2⟩
  simp [ssiRun, h1, h2]

theorem ssiStep_WAIT_yes (cfg : SsiCfg) (b : List Char) (tl : Nat) (c : Char)
    (h : cfg.tagStart.get? 0 = some c) :
    ssiStep cfg ⟨.WAIT_BEGIN, b, tl⟩ c = (⟨.BEGIN, [c], tl⟩, [], []) := by
  dsimp only [ssiStep]
  rw [if_pos h]

theorem ssiStep_WAIT_no (cfg : SsiCfg) (b : List Char) (tl : Nat) (c : Char)
    (h : ¬ cfg.tagStart.get? 0 = some c) :
    ssiStep cfg ⟨.WAIT_BEGIN, b, tl⟩ c =
      (⟨.WAIT_BEGIN, [], tl⟩, b ++ [c], []) := by
  dsimp only [ssiStep]
  rw [if_neg h]

theorem ssiStep_BEGIN_grow (cfg : SsiCfg) (b : List Char) (tl : Nat) (c : Char)
    (h1 : b.length < cfg.tagStart.length)
    (h2 : cfg.tagStart.get? b.length = some c)
    (h3 : (b ++ [c]).length ≠ cfg.tagStart.length) :
    ssiStep cfg ⟨.BEGIN, b, tl⟩ c = (⟨.BEGIN, b ++ [c], tl⟩, [], []) := by
  dsimp only [ssiStep]
  rw [if_pos ⟨h1, h2⟩, if_neg h3]

theorem ssiStep_BEGIN_toTag (cfg : SsiCfg) (b : List Char) (tl : Nat) (c : Char)
    (h1 : b.length < cfg.tagStart.length)
    (h2 : cfg.tagStart.get? b.length = some c)
    (h3 : (b ++ [c]).length = cfg.tagStart.length) :
    ssiStep cfg ⟨.BEGIN, b, tl⟩ c = (⟨.TAG, b ++ [c], 0⟩, [], []) := by
  dsimp only [ssiStep]
  rw [if_pos ⟨h1, h2⟩, if_pos h3]

theorem ssiStep_BEGIN_no (cfg : SsiCfg) (b : List Char) (tl : Nat) (c : Char)
    (h : ¬ (b.length < cfg.tagStart.length ∧
        cfg.tagStart.get? b.length = some c)) :
    ssiStep cfg ⟨.BEGIN, b, tl⟩ c =
      (⟨.WAIT_BEGIN, [], tl⟩, b ++ [c], []) := by
  dsimp only [ssiStep]
  rw [if_neg h]

theorem ssiStep_TAG_toEnd (cfg : SsiCfg) (b : List Char) (tl : Nat) (c : Char)
    (h : cfg.tagEnd.get? 0 = some c) :
    ssiStep cfg ⟨.TAG, b, tl⟩ c = (⟨.END, b ++ [c], tl⟩, [], []) := by
  dsimp only [ssiStep]
  rw [if_pos h]

theorem ssiStep_TAG_grow (cfg : SsiCfg) (b : List Char) (tl : Nat) (c : Char)
    (h1 : ¬ cfg.tagEnd.get? 0 = some c)
    (h2 : b.length - cfg.tagStart.length < cfg.maxLen) :
    ssiStep cfg ⟨.TAG, b, tl⟩ c = (⟨.TAG, b ++ [c], tl + 1⟩, [], []) := by
  dsimp only [ssiStep]
  rw [if_neg h1, if_pos h2]

theorem ssiStep_TAG_no (cfg : SsiCfg) (b : List Char) (tl : Nat) (c : Char)
    (h1 : ¬ cfg.tagEnd.get? 0 = some c)
    (h2 : ¬ b.length - cfg.tagStart.length < cfg.maxLen) :
    ssiStep cfg ⟨.TAG, b, tl⟩ c = (⟨.WAIT_BEGIN, [], tl⟩, b ++ [c], []) := by
  dsimp only [ssiStep]
  rw [if_neg h1, if_neg h2]

theorem ssiStep_END_complete (cfg : SsiCfg) (b : List Char) (tl : Nat)
    (c : Char)
    (h1 : b.length - cfg.tagStart.length - tl < cfg.tagEnd.length)
    (h2 : cfg.tagEnd.get? (b.length - cfg.tagStart.length - tl) = some c)
    (h3 : (b ++ [c]).length = cfg.tagStart.length + tl + cfg.tagEnd.length) :
    ssiStep cfg ⟨.END, b, tl⟩ c =
      (⟨.WAIT_BEGIN, [], 0⟩,
       cfg.repl (((b ++ [c]).drop cfg.tagStart.length).take tl),
       [((b ++ [c]).drop cfg.tagStart.length).take tl]) := by
  dsimp only [ssiStep]
  rw [if_pos ⟨h1, h2⟩, if_pos h3]

theorem ssiStep_END_grow (cfg : SsiCfg) (b : List Char) (tl : Nat) (c : Char)
    (h1 : b.length - cfg.tagStart.length - tl < cfg.tagEnd.length)
    (h2 : cfg.tagEnd.get? (b.length - cfg.tagStart.length - tl) = some c)
    (h3 : (b ++ [c]).length ≠ cfg.tagStart.length + tl + cfg.tagEnd.length) :
    ssiStep cfg ⟨.END, b, tl⟩ c = (⟨.END, b ++ [c], tl⟩, [], []) := by
  dsimp only [ssiStep]
  rw [if_pos ⟨h1, h2⟩, if_neg h3]

theorem ssiStep_END_no (cfg : SsiCfg) (b : List Char) (tl : Nat) (c : Char)
    (h : ¬ (b.length - cfg.tagStart.length - tl < cfg.tagEnd.length ∧
        cfg.tagEnd.get? (b.length - cfg.tagStart.length - tl) = some c)) :
    ssiStep cfg ⟨.END, b, tl⟩ c = (⟨.WAIT_BEGIN, [], tl⟩, b ++ [c], []) := by
  dsimp only [ssiStep]
  rw [if_neg h]

theorem take_append_of_get? {l : List Char} {j : Nat} {c : Char}
    (h : l.get? j = some c) : l.take j ++ [c] = l.take (j + 1) := by
  obtain ⟨hlt, hv⟩ := List.get?_eq_some.mp h
  have hc : l[j] = c := by simpa [List.get_eq_getElem] using hv
  rw [← hc]
  exact List.take_concat_get' l j hlt

/-- Simulation, END phase: running from the state that has matched
`tagStart ++ name ++ tagEnd.take j` follows `scanEnd`. -/
theorem ssiRunEND (cfg : SsiCfg) :
    ∀ (r name : List Char) (j : Nat), 1 ≤ j → j ≤ cfg.tagEnd.length →
      AttemptInv cfg ⟨.END, cfg.tagStart ++ name ++ cfg.tagEnd.take j,
        name.length⟩ (scanEnd cfg name j r) r := by
  intro r
  induction r with
  | nil =>
    intro name j _ _
    simp [scanEnd, AttemptInv, ssiRun]
  | cons c r ih =>
    intro name j hj1 hj2
    have hblen : (cfg.tagStart ++ name ++ cfg.tagEnd.take j).length =
        cfg.tagStart.length + name.length + j := by
      simp only [List.length_append, List.length_take]
      omega
    have hidx : (cfg.tagStart ++ name ++ cfg.tagEnd.take j).length -
        cfg.tagStart.length - name.length = j := by omega
    by_cases hG : j < cfg.tagEnd.length ∧ cfg.tagEnd.get? j = some c
    · obtain ⟨hGlt, hGget⟩ := hG
      by_cases hdone : j + 1 = cfg.tagEnd.length
      · -- the tag completes at this byte
        have hscan : scanEnd cfg name j (c :: r) = .complete name r := by
          rw [scanEnd, if_pos ⟨hGlt, hGget⟩, if_pos hdone]
        rw [hscan]
        have hstep := ssiStep_END_complete cfg
          (cfg.tagStart ++ name ++ cfg.tagEnd.take j) name.length c
          (by rw [hidx]; exact hGlt) (by rw [hidx]; exact hGget)
          (by simp [hblen]; omega)
        have hname : (((cfg.tagStart ++ name ++ cfg.tagEnd.take j) ++ [c]).drop
            cfg.tagStart.length).take name.length = name := by
          have h1 : (cfg.tagStart ++ name ++ cfg.tagEnd.take j) ++ [c] =
              cfg.tagStart ++ (name ++ (cfg.tagEnd.take j ++ [c])) := by
            simp [List.append_assoc]
          rw [h1, List.drop_left]
          exact List.take_left _ _
        dsimp only [AttemptInv]
        rw [ssiRun_cons, hstep, hname]
        simp
      · -- more end-marker bytes expected
        have hscan : scanEnd cfg name j (c :: r) =
            (scanEnd cfg name (j + 1) r).shift 1 := by
          rw [scanEnd, if_pos ⟨hGlt, hGget⟩, if_neg hdone]
        rw [hscan]
        have hstep := ssiStep_END_grow cfg
          (cfg.tagStart ++ name ++ cfg.tagEnd.take j) name.length c
          (by rw [hidx]; exact hGlt) (by rw [hidx]; exact hGget)
          (by simp [hblen]; omega)
        have hB' : (cfg.tagStart ++ name ++ cfg.tagEnd.take j) ++ [c] =
            cfg.tagStart ++ name ++ cfg.tagEnd.take (j + 1) := by
          rw [List.append_assoc, List.append_assoc,
            take_append_of_get? hGget, ← List.append_assoc]
        have IH := ih name (j + 1) (by omega) (by omega)
        cases hres : scanEnd cfg name (j + 1) r with
        | complete nm rest =>
          rw [hres] at IH
          dsimp only [AttemptInv, TagScan.shift] at IH ⊢
          rw [ssiRun_cons, hstep, hB', IH]
          simp
        | failAt k =>
          rw [hres] at IH
          dsimp only [AttemptInv, TagScan.shift] at IH ⊢
          obtain ⟨tl, hIH⟩ := IH
          refine ⟨tl, ?_⟩
          rw [ssiRun_cons, hstep, hB', hIH]
          simp only [List.take_succ_cons, List.drop_succ_cons,
            List.append_assoc, List.nil_append, List.cons_append,
            ← take_append_of_get? hGget]
        | exhausted =>
          rw [hres] at IH
          dsimp only [AttemptInv, TagScan.shift] at IH ⊢
          obtain ⟨hout, hcalls, hbuff⟩ := IH
          rw [ssiRun_cons, hstep, hB']
          dsimp only
          refine ⟨by simp only [hout, List.nil_append],
            by simp only [hcalls, List.nil_append], ?_⟩
          rw [hbuff, ← take_append_of_get? hGget]
          simp [List.append_assoc]
    · -- mismatch: reset, flush and consume the byte
      have hscan : scanEnd cfg name j (c :: r) = .failAt 0 := by
        rw [scanEnd, if_neg hG]
      rw [hscan]
      have hstep := ssiStep_END_no cfg
        (cfg.tagStart ++ name ++ cfg.tagEnd.take j) name.length c
        (by rw [hidx]; exact hG)
      dsimp only [AttemptInv]
      refine ⟨name.length, ?_⟩
      rw [ssiRun_cons, hstep]
      simp

/-- Simulation, TAG phase: running from the state that has matched
`tagStart ++ name` follows `scanTag`. -/
theorem ssiRunTAG (cfg : SsiCfg) :
    ∀ (r name : List Char),
      AttemptInv cfg ⟨.TAG, cfg.tagStart ++ name, name.length⟩
        (scanTag cfg name r) r := by
  intro r
  induction r with
  | nil =>
    intro name
    simp [scanTag, AttemptInv, ssiRun]
  | cons c r ih =>
    intro name
    by_cases hEnd0 : cfg.tagEnd.get? 0 = some c
    · -- transition to the END phase
      have hscan : scanTag cfg name (c :: r) = (scanEnd cfg name 1 r).shift 1 := by
        rw [scanTag, if_pos hEnd0]
      rw [hscan]
      have hstep := ssiStep_TAG_toEnd cfg (cfg.tagStart ++ name) name.length c
        hEnd0
      have htake1 : cfg.tagEnd.take 1 = [c] := by
        simpa using (take_append_of_get? hEnd0).symm
      have hEndLen : 1 ≤ cfg.tagEnd.length := by
        obtain ⟨h, -⟩ := List.get?_eq_some.mp hEnd0
        omega
      have hB' : (cfg.tagStart ++ name) ++ [c] =
          cfg.tagStart ++ name ++ cfg.tagEnd.take 1 := by rw [htake1]
      have IH2 := ssiRunEND cfg r name 1 le_rfl hEndLen
      cases hres : scanEnd cfg name 1 r with
      | complete nm rest =>
        rw [hres] at IH2
        dsimp only [AttemptInv, TagScan.shift] at IH2 ⊢
        rw [ssiRun_cons, hstep, hB', IH2]
        simp
      | failAt k =>
        rw [hres] at IH2
        dsimp only [AttemptInv, TagScan.shift] at IH2 ⊢
        obtain ⟨tl, hIH⟩ := IH2
        refine ⟨tl, ?_⟩
        rw [ssiRun_cons, hstep, hB', hIH]
        simp only [List.take_succ_cons, List.drop_succ_cons,
          List.append_assoc, List.nil_append, List.cons_append, htake1]
      | exhausted =>
        rw [hres] at IH2
        dsimp only [AttemptInv, TagScan.shift] at IH2 ⊢
        obtain ⟨hout, hcalls, hbuff⟩ := IH2
        rw [ssiRun_cons, hstep, hB']
        dsimp only
        refine ⟨by simp only [hout, List.nil_append],
          by simp only [hcalls, List.nil_append], ?_⟩
        rw [hbuff, htake1]
        simp [List.append_assoc]
    · by_cases hMax : name.length < cfg.maxLen
      · -- accumulate a name byte
        have hscan : scanTag cfg name (c :: r) =
            (scanTag cfg (name ++ [c]) r).shift 1 := by
          rw [scanTag, if_neg hEnd0, if_pos hMax]
        rw [hscan]
        have hlen : (cfg.tagStart ++ name).length - cfg.tagStart.length =
            name.length := by simp
        have hstep := ssiStep_TAG_grow cfg (cfg.tagStart ++ name) name.length c
          hEnd0 (by rw [hlen]; exact hMax)
        have hB' : (cfg.tagStart ++ name) ++ [c] =
            cfg.tagStart ++ (name ++ [c]) := by
          rw [List.append_assoc]
        have hl : name.length + 1 = (name ++ [c]).length := by simp
        have IH := ih (name ++ [c])
        cases hres : scanTag cfg (name ++ [c]) r with
        | complete nm rest =>
          rw [hres] at IH
          dsimp only [AttemptInv, TagScan.shift] at IH ⊢
          rw [ssiRun_cons, hstep, hB', hl, IH]
          simp
        | failAt k =>
          rw [hres] at IH
          dsimp only [AttemptInv, TagScan.shift] at IH ⊢
          obtain ⟨tl, hIH⟩ := IH
          refine ⟨tl, ?_⟩
          rw [ssiRun_cons, hstep, hB', hl, hIH]
          simp only [List.take_succ_cons, List.drop_succ_cons,
            List.append_assoc, List.nil_append, List.cons_append]
        | exhausted =>
          rw [hres] at IH
          dsimp only [AttemptInv, TagScan.shift] at IH ⊢
          obtain ⟨hout, hcalls, hbuff⟩ := IH
          rw [ssiRun_cons, hstep, hB', hl]
          dsimp only
          refine ⟨by simp only [hout, List.nil_append],
            by simp only [hcalls, List.nil_append], ?_⟩
          rw [hbuff]
          simp [List.append_assoc]
      · -- oversized name: reset
        have hscan : scanTag cfg name (c :: r) = .failAt 0 := by
          rw [scanTag, if_neg hEnd0, if_neg hMax]
        rw [hscan]
        have hlen : (cfg.tagStart ++ name).length - cfg.tagStart.length =
            name.length := by simp
        have hstep := ssiStep_TAG_no cfg (cfg.tagStart ++ name) name.length c
          hEnd0 (by rw [hlen]; exact hMax)
        dsimp only [AttemptInv]
        refine ⟨name.length, ?_⟩
        rw [ssiRun_cons, hstep]
        simp

/-- Simulation, BEGIN phase: running from the state that has matched the
first `k` bytes of the tag start follows `scanStart`. -/
theorem ssiRunBEGIN (cfg : SsiCfg) :
    ∀ (r : List Char) (k tl : Nat), 1 ≤ k → k ≤ cfg.tagStart.length →
      AttemptInv cfg ⟨.BEGIN, cfg.tagStart.take k, tl⟩
        (scanStart cfg k r) r := by
  intro r
  induction r with
  | nil =>
    intro k tl _ _
    simp [scanStart, AttemptInv, ssiRun]
  | cons c r ih =>
    intro k tl hk1 hk2
    have hblen : (cfg.tagStart.take k).length = k := by
      simp [Nat.min_eq_left hk2]
    by_cases hG : k < cfg.tagStart.length ∧ cfg.tagStart.get? k = some c
    · obtain ⟨hklt, hkget⟩ := hG
      have htake : cfg.tagStart.take k ++ [c] = cfg.tagStart.take (k + 1) :=
        take_append_of_get? hkget
      by_cases hdone : k + 1 = cfg.tagStart.length
      · -- the tag start is complete: move to TAG with an empty name
        have hscan : scanStart cfg k (c :: r) = (scanTag cfg [] r).shift 1 := by
          rw [scanStart, if_pos ⟨hklt, hkget⟩, if_pos hdone]
        rw [hscan]
        have hstep := ssiStep_BEGIN_toTag cfg (cfg.tagStart.take k) tl c
          (by rw [hblen]; exact hklt) (by rw [hblen]; exact hkget)
          (by simp [hblen]; omega)
        have hB' : cfg.tagStart.take k ++ [c] = cfg.tagStart ++ ([] : List Char) := by
          rw [htake, hdone, List.take_length, List.append_nil]
        have hsplit : ∀ Y : List Char,
            List.take k cfg.tagStart ++ c :: Y = cfg.tagStart ++ Y := by
          intro Y
          rw [← List.singleton_append, ← List.append_assoc, htake, hdone,
            List.take_length]
        have IH2 := ssiRunTAG cfg r []
        cases hres : scanTag cfg ([] : List Char) r with
        | complete nm rest =>
          rw [hres] at IH2
          dsimp only [AttemptInv, TagScan.shift] at IH2 ⊢
          rw [ssiRun_cons, hstep, hB']
          rw [show ([] : List Char).length = 0 from rfl] at IH2
          rw [IH2]
          simp
        | failAt k' =>
          rw [hres] at IH2
          dsimp only [AttemptInv, TagScan.shift] at IH2 ⊢
          obtain ⟨tl', hIH⟩ := IH2
          refine ⟨tl', ?_⟩
          rw [ssiRun_cons, hstep, hB']
          rw [show ([] : List Char).length = 0 from rfl] at hIH
          rw [hIH]
          simp only [List.take_succ_cons, List.drop_succ_cons,
            List.append_assoc, List.nil_append, List.cons_append,
            List.append_nil]
          rw [hsplit]
        | exhausted =>
          rw [hres] at IH2
          dsimp only [AttemptInv, TagScan.shift] at IH2 ⊢
          obtain ⟨hout, hcalls, hbuff⟩ := IH2
          rw [ssiRun_cons, hstep, hB']
          dsimp only
          rw [show ([] : List Char).length = 0 from rfl] at hout hcalls hbuff
          refine ⟨by simp only [hout, List.nil_append],
            by simp only [hcalls, List.nil_append], ?_⟩
          rw [hbuff, hsplit]
          simp
      · -- more tag-start bytes expected
        have hscan : scanStart cfg k (c :: r) =
            (scanStart cfg (k + 1) r).shift 1 := by
          rw [scanStart, if_pos ⟨hklt, hkget⟩, if_neg hdone]
        rw [hscan]
        have hstep := ssiStep_BEGIN_grow cfg (cfg.tagStart.take k) tl c
          (by rw [hblen]; exact hklt) (by rw [hblen]; exact hkget)
          (by simp [hblen]; omega)
        have IH := ih (k + 1) tl (by omega) (by omega)
        cases hres : scanStart cfg (k + 1) r with
        | complete nm rest =>
          rw [hres] at IH
          dsimp only [AttemptInv, TagScan.shift] at IH ⊢
          rw [ssiRun_cons, hstep, htake, IH]
          simp
        | failAt k' =>
          rw [hres] at IH
          dsimp only [AttemptInv, TagScan.shift] at IH ⊢
          obtain ⟨tl', hIH⟩ := IH
          refine ⟨tl', ?_⟩
          rw [ssiRun_cons, hstep, htake, hIH]
          simp only [List.take_succ_cons, List.drop_succ_cons,
            List.append_assoc, List.nil_append, List.cons_append, ← htake]
        | exhausted =>
          rw [hres] at IH
          dsimp only [AttemptInv, TagScan.shift] at IH ⊢
          obtain ⟨hout, hcalls, hbuff⟩ := IH
          rw [ssiRun_cons, hstep, htake]
          dsimp only
          refine ⟨by simp only [hout, List.nil_append],
            by simp only [hcalls, List.nil_append], ?_⟩
          rw [hbuff, ← htake]
          simp [List.append_assoc]
    · -- mismatch inside the tag start
      have hscan : scanStart cfg k (c :: r) = .failAt 0 := by
        rw [scanStart, if_neg hG]
      rw [hscan]
      have hstep := ssiStep_BEGIN_no cfg (cfg.tagStart.take k) tl c
        (by rw [hblen]; exact hG)
      dsimp only [AttemptInv]
      refine ⟨tl, ?_⟩
      rw [ssiRun_cons, hstep]
      simp

theorem drop_of_get? {l : List Char} {j : Nat} {c : Char}
    (h : l.get? j = some c) : l.drop j = c :: l.drop (j + 1) := by
  obtain ⟨hlt, hv⟩ := List.get?_eq_some.mp h
  have hc : l[j] = c := by simpa [List.get_eq_getElem] using hv
  rw [← hc]
  exact List.drop_eq_getElem_cons hlt

theorem scanEnd_complete_shape (cfg : SsiCfg) :
    ∀ (r : List Char) (name nm rest : List Char) (j : Nat),
      scanEnd cfg name j r = .complete nm rest →
      nm = name ∧ r = cfg.tagEnd.drop j ++ rest := by
  intro r
  induction r with
  | nil =>
    intro name nm rest j h
    exact absurd h (by simp [scanEnd])
  | cons c r ih =>
    intro name nm rest j h
    rw [scanEnd] at h
    split at h
    · rename_i hG
      split at h
      · rename_i hdone
        injection h with h1 h2
        subst h1; subst h2
        refine ⟨rfl, ?_⟩
        rw [drop_of_get? hG.2, hdone, List.drop_length]
        rfl
      · rename_i hdone
        cases hres : scanEnd cfg name (j + 1) r with
        | complete nm' rest' =>
          rw [hres] at h
          dsimp only [TagScan.shift] at h
          injection h with h1 h2
          subst h1; subst h2
          obtain ⟨hnm, hr⟩ := ih name nm' rest' (j + 1) hres
          refine ⟨hnm, ?_⟩
          rw [drop_of_get? hG.2, hr]
          rfl
        | failAt k =>
          rw [hres] at h; exact absurd h (by simp [TagScan.shift])
        | exhausted =>
          rw [hres] at h; exact absurd h (by simp [TagScan.shift])
    · exact absurd h (by simp)

theorem scanTag_complete_shape (cfg : SsiCfg) :
    ∀ (r : List Char) (name nm rest : List Char),
      scanTag cfg name r = .complete nm rest →
      ∃ suffix, nm = name ++ suffix ∧ r = suffix ++ cfg.tagEnd ++ rest := by
  intro r
  induction r with
  | nil =>
    intro name nm rest h
    exact absurd h (by simp [scanTag])
  | cons c r ih =>
    intro name nm rest h
    rw [scanTag] at h
    split at h
    · rename_i hEnd0
      cases hres : scanEnd cfg name 1 r with
      | complete nm' rest' =>
        rw [hres] at h
        dsimp only [TagScan.shift] at h
        injection h with h1 h2
        subst h1; subst h2
        obtain ⟨hnm, hr⟩ := scanEnd_complete_shape cfg r name nm' rest' 1 hres
        refine ⟨[], by simp [hnm], ?_⟩
        rw [hr]
        have : cfg.tagEnd = c :: cfg.tagEnd.drop 1 := by
          simpa using drop_of_get? hEnd0
        rw [this]
        simp
      | failAt k =>
        rw [hres] at h; exact absurd h (by simp [TagScan.shift])
      | exhausted =>
        rw [hres] at h; exact absurd h (by simp [TagScan.shift])
    · split at h
      · rename_i hMax
        cases hres : scanTag cfg (name ++ [c]) r with
        | complete nm' rest' =>
          rw [hres] at h
          dsimp only [TagScan.shift] at h
          injection h with h1 h2
          subst h1; subst h2
          obtain ⟨suf, hnm, hr⟩ := ih (name ++ [c]) nm' rest' hres
          refine ⟨c :: suf, by simp [hnm], ?_⟩
          rw [hr]
          simp
        | failAt k =>
          rw [hres] at h; exact absurd h (by simp [TagScan.shift])
        | exhausted =>
          rw [hres] at h; exact absurd h (by simp [TagScan.shift])
      · exact absurd h (by simp)

theorem scanStart_complete_shape (cfg : SsiCfg) :
    ∀ (r : List Char) (nm rest : List Char) (k : Nat),
      scanStart cfg k r = .complete nm rest →
      r = cfg.tagStart.drop k ++ nm ++ cfg.tagEnd ++ rest := by
  intro r
  induction r with
  | nil =>
    intro nm rest k h
    exact absurd h (by simp [scanStart])
  | cons c r ih =>
    intro nm rest k h
    rw [scanStart] at h
    split at h
    · rename_i hG
      split at h
      · rename_i hdone
        cases hres : scanTag cfg ([] : List Char) r with
        | complete nm' rest' =>
          rw [hres] at h
          dsimp only [TagScan.shift] at h
          injection h with h1 h2
          subst h1; subst h2
          obtain ⟨suf, hnm, hr⟩ := scanTag_complete_shape cfg r [] nm' rest' hres
          rw [List.nil_append] at hnm
          subst hnm
          rw [hr, drop_of_get? hG.2, hdone, List.drop_length]
          rfl
        | failAt k' =>
          rw [hres] at h; exact absurd h (by simp [TagScan.shift])
        | exhausted =>
          rw [hres] at h; exact absurd h (by simp [TagScan.shift])
      · rename_i hdone
        cases hres : scanStart cfg (k + 1) r with
        | complete nm' rest' =>
          rw [hres] at h
          dsimp only [TagScan.shift] at h
          injection h with h1 h2
          subst h1; subst h2
          rw [ih nm' rest' (k + 1) hres, drop_of_get? hG.2]
          rfl
        | failAt k' =>
          rw [hres] at h; exact absurd h (by simp [TagScan.shift])
        | exhausted =>
          rw [hres] at h; exact absurd h (by simp [TagScan.shift])
    · exact absurd h (by simp)

theorem scanAttempt_complete_shape (cfg : SsiCfg) (l nm rest : List Char)
    (h : scanAttempt cfg l = .complete nm rest) :
    l = cfg.tagStart ++ nm ++ cfg.tagEnd ++ rest := by
  cases l with
  | nil => exact absurd h (by simp [scanAttempt])
  | cons c r =>
    rw [scanAttempt] at h
    split at h
    · rename_i hc
      cases hres : scanStart cfg 1 r with
      | complete nm' rest' =>
        rw [hres] at h
        dsimp only [TagScan.shift] at h
        injection h with h1 h2
        subst h1; subst h2
        rw [scanStart_complete_shape cfg r nm' rest' 1 hres]
        have : cfg.tagStart = c :: cfg.tagStart.drop 1 := by
          simpa using drop_of_get? hc
        conv_rhs => rw [this]
        rfl
      | failAt k' =>
        rw [hres] at h; exact absurd h (by simp [TagScan.shift])
      | exhausted =>
        rw [hres] at h; exact absurd h (by simp [TagScan.shift])
    · exact absurd h (by simp)

theorem ssiRef_nil (cfg : SsiCfg) (fuel : Nat) :
    ssiRef cfg fuel [] = ([], [], []) := by
  cases fuel <;> rfl

theorem ssiRef_succ (cfg : SsiCfg) (fuel : Nat) (c : Char) (r : List Char) :
    ssiRef cfg (fuel + 1) (c :: r) =
      match scanAttempt cfg (c :: r) with
      | .complete name rest =>
        (cfg.repl name ++ (ssiRef cfg fuel rest).1,
         name :: (ssiRef cfg fuel rest).2.1,
         (ssiRef cfg fuel rest).2.2)
      | .failAt k =>
        ((c :: r).take (k + 1) ++
           (ssiRef cfg fuel ((c :: r).drop (k + 1))).1,
         (ssiRef cfg fuel ((c :: r).drop (k + 1))).2.1,
         (ssiRef cfg fuel ((c :: r).drop (k + 1))).2.2)
      | .exhausted => ([], [], c :: r) := by
  cases hatt : scanAttempt cfg (c :: r) with
  | complete nm rest =>
    rcases h2 : ssiRef cfg fuel rest with ⟨o, cs, pend⟩
    simp [ssiRef, hatt, h2]
  | failAt k =>
    rcases h2 : ssiRef cfg fuel ((c :: r).drop (k + 1)) with ⟨o, cs, pend⟩
    simp [ssiRef, hatt, h2]
  | exhausted => simp [ssiRef, hatt]

theorem scanAttempt_complete_head {cfg : SsiCfg} {c : Char} {r nm rest : List Char}
    (h : scanAttempt cfg (c :: r) = .complete nm rest) :
    cfg.tagStart.get? 0 = some c := by
  rw [scanAttempt] at h
  split at h
  · assumption
  · exact absurd h (by simp)

theorem scanAttempt_complete_rest_lt {cfg : SsiCfg} {c : Char}
    {r nm rest : List Char}
    (h : scanAttempt cfg (c :: r) = .complete nm rest) :
    rest.length < (c :: r).length := by
  have hc := scanAttempt_complete_head h
  obtain ⟨hlt, -⟩ := List.get?_eq_some.mp hc
  have hshape := scanAttempt_complete_shape cfg (c :: r) nm rest h
  have h2 : (c :: r).length =
      cfg.tagStart.length + nm.length + cfg.tagEnd.length + rest.length := by
    rw [hshape]
    simp only [List.length_append]
  rw [h2]
  omega

theorem ssiRef_fuel_congr (cfg : SsiCfg) :
    ∀ (n : Nat) (l : List Char) (fuel fuel' : Nat), l.length ≤ n →
      l.length ≤ fuel → l.length ≤ fuel' →
      ssiRef cfg fuel l = ssiRef cfg fuel' l := by
  intro n
  induction n with
  | zero =>
    intro l fuel fuel' hn _ _
    have : l = [] := List.eq_nil_of_length_eq_zero (by omega)
    subst this
    rw [ssiRef_nil, ssiRef_nil]
  | succ n ih =>
    intro l fuel fuel' hn hf hf'
    cases l with
    | nil => rw [ssiRef_nil, ssiRef_nil]
    | cons c r =>
      simp only [List.length_cons] at hn hf hf'
      obtain ⟨f0, rfl⟩ : ∃ f0, fuel = f0 + 1 := ⟨fuel - 1, by omega⟩
      obtain ⟨f1, rfl⟩ : ∃ f1, fuel' = f1 + 1 := ⟨fuel' - 1, by omega⟩
      rw [ssiRef_succ, ssiRef_succ]
      cases hatt : scanAttempt cfg (c :: r) with
      | complete nm rest =>
        have hlt := scanAttempt_complete_rest_lt hatt
        simp only [List.length_cons] at hlt
        dsimp only
        rw [ih rest f0 f1 (by omega) (by omega) (by omega)]
      | failAt k =>
        have hlen : ((c :: r).drop (k + 1)).length ≤ r.length := by
          simp [List.length_drop]
        dsimp only
        rw [ih ((c :: r).drop (k + 1)) f0 f1 (by omega) (by omega) (by omega)]
      | exhausted => rfl

/-- Simulation, top level: a whole machine run from the clean state
follows the declarative reference. -/
theorem ssiSimAux (cfg : SsiCfg) :
    ∀ (n : Nat) (l : List Char), l.length ≤ n → ∀ tl : Nat,
      (ssiRun cfg ⟨.WAIT_BEGIN, [], tl⟩ l).2.1 = (ssiRef cfg l.length l).1 ∧
      (ssiRun cfg ⟨.WAIT_BEGIN, [], tl⟩ l).2.2 =
        (ssiRef cfg l.length l).2.1 ∧
      (ssiRun cfg ⟨.WAIT_BEGIN, [], tl⟩ l).1.buff =
        (ssiRef cfg l.length l).2.2 := by
  intro n
  induction n with
  | zero =>
    intro l hlen tl
    have : l = [] := List.eq_nil_of_length_eq_zero (by omega)
    subst this
    simp [ssiRun, ssiRef]
  | succ n ih =>
    intro l hlen tl
    cases l with
    | nil => simp [ssiRun, ssiRef]
    | cons c r =>
      simp only [List.length_cons] at hlen ⊢
      rw [ssiRef_succ]
      by_cases hc : cfg.tagStart.get? 0 = some c
      · have hstep := ssiStep_WAIT_yes cfg [] tl c hc
        have hstart1 : 1 ≤ cfg.tagStart.length := by
          obtain ⟨h, -⟩ := List.get?_eq_some.mp hc
          omega
        have htake1 : cfg.tagStart.take 1 = [c] := by
          simpa using (take_append_of_get? hc).symm
        have hattempt : scanAttempt cfg (c :: r) =
            (scanStart cfg 1 r).shift 1 := by
          rw [scanAttempt, if_pos hc]
        have hAI := ssiRunBEGIN cfg r 1 tl le_rfl hstart1
        rw [htake1] at hAI
        cases hres : scanStart cfg 1 r with
        | complete nm rest =>
          rw [hres] at hAI
          dsimp only [AttemptInv] at hAI
          have hatt2 : scanAttempt cfg (c :: r) = .complete nm rest := by
            rw [hattempt, hres]; rfl
          have hrest_lt := scanAttempt_complete_rest_lt hatt2
          simp only [List.length_cons] at hrest_lt
          have hfc : ssiRef cfg r.length rest =
              ssiRef cfg rest.length rest :=
            ssiRef_fuel_congr cfg rest.length rest r.length rest.length
              le_rfl (by omega) le_rfl
          obtain ⟨ho, hcs, hb⟩ := ih rest (by omega) 0
          simp only [hatt2]
          rw [ssiRun_cons, hstep, hAI, hfc]
          simp [ho, hcs, hb]
        | failAt k =>
          rw [hres] at hAI
          dsimp only [AttemptInv] at hAI
          obtain ⟨tl', hAI⟩ := hAI
          have hatt2 : scanAttempt cfg (c :: r) = .failAt (k + 1) := by
            rw [hattempt, hres]; rfl
          have hdlen : (r.drop (k + 1)).length ≤ r.length := by
            simp [List.length_drop]
          have hfc : ssiRef cfg r.length (r.drop (k + 1)) =
              ssiRef cfg (r.drop (k + 1)).length (r.drop (k + 1)) :=
            ssiRef_fuel_congr cfg (r.drop (k + 1)).length (r.drop (k + 1))
              r.length (r.drop (k + 1)).length le_rfl (by omega) le_rfl
          obtain ⟨ho, hcs, hb⟩ := ih (r.drop (k + 1)) (by omega) tl'
          simp only [hatt2]
          rw [ssiRun_cons, hstep, hAI]
          simp only [List.take_succ_cons, List.drop_succ_cons]
          rw [hfc]
          simp [ho, hcs, hb]
        | exhausted =>
          rw [hres] at hAI
          dsimp only [AttemptInv] at hAI
          obtain ⟨ho, hcs, hb⟩ := hAI
          have hatt2 : scanAttempt cfg (c :: r) = .exhausted := by
            rw [hattempt, hres]; rfl
          simp only [hatt2]
          rw [ssiRun_cons, hstep]
          simp [ho, hcs, hb]
      · have hstep := ssiStep_WAIT_no cfg [] tl c hc
        have hatt2 : scanAttempt cfg (c :: r) = .failAt 0 := by
          rw [scanAttempt, if_neg hc]
        obtain ⟨ho, hcs, hb⟩ := ih r (by omega) tl
        simp only [hatt2]
        rw [ssiRun_cons, hstep]
        simp only [List.take_succ_cons, List.drop_succ_cons, List.take_zero,
          List.drop_zero]
        simp [ho, hcs, hb]


theorem ssiStep_of_accept (cfg : SsiCfg) (m : SsiM) (ch : Char) (m1 : SsiM)
    (hacc : pumpAccept cfg m ch = some m1)
    (hnc : ¬ (m.st = SsiSt.END ∧
      m1.buff.length = cfg.tagStart.length + m1.tagLen + cfg.tagEnd.length)) :
    ssiStep cfg m ch = (m1, [], []) := by
  obtain ⟨st, bf, tl⟩ := m
  cases st with
  | WAIT_BEGIN =>
    dsimp only [pumpAccept] at hacc
    dsimp only [ssiStep]
    by_cases hc : cfg.tagStart.get? 0 = some ch
    · rw [if_pos hc] at hacc
      rw [if_pos hc]
      injection hacc with h
      rw [h]
    · rw [if_neg hc] at hacc
      cases hacc
  | BEGIN =>
    dsimp only [pumpAccept] at hacc
    dsimp only [ssiStep]
    by_cases hc : bf.length < cfg.tagStart.length ∧
        cfg.tagStart.get? bf.length = some ch
    · rw [if_pos hc] at hacc
      rw [if_pos hc]
      by_cases hd : (bf ++ [ch]).length = cfg.tagStart.length
      · rw [if_pos hd] at hacc
        rw [if_pos hd]
        injection hacc with h
        rw [h]
      · rw [if_neg hd] at hacc
        rw [if_neg hd]
        injection hacc with h
        rw [h]
    · rw [if_neg hc] at hacc
      cases hacc
  | TAG =>
    dsimp only [pumpAccept] at hacc
    dsimp only [ssiStep]
    by_cases hc : cfg.tagEnd.get? 0 = some ch
    · rw [if_pos hc] at hacc
      rw [if_pos hc]
      injection hacc with h
      rw [h]
    · rw [if_neg hc] at hacc
      rw [if_neg hc]
      by_cases hd : bf.length - cfg.tagStart.length < cfg.maxLen
      · rw [if_pos hd] at hacc
        rw [if_pos hd]
        injection hacc with h
        rw [h]
      · rw [if_neg hd] at hacc
        cases hacc
  | END =>
    dsimp only [pumpAccept] at hacc
    dsimp only [ssiStep]
    by_cases hc : bf.length - cfg.tagStart.length - tl < cfg.tagEnd.length ∧
        cfg.tagEnd.get? (bf.length - cfg.tagStart.length - tl) = some ch
    · rw [if_pos hc] at hacc
      rw [if_pos hc]
      injection hacc with h
      have hlen : ¬ (bf ++ [ch]).length =
          cfg.tagStart.length + tl + cfg.tagEnd.length := by
        intro hx
        exact hnc ⟨rfl, by rw [← h]; exact hx⟩
      rw [if_neg hlen, h]
    · rw [if_neg hc] at hacc
      cases hacc

theorem ssiStep_of_accept_done (cfg : SsiCfg) (m : SsiM) (ch : Char)
    (m1 : SsiM)
    (hacc : pumpAccept cfg m ch = some m1)
    (hst : m.st = SsiSt.END)
    (hlen : m1.buff.length =
      cfg.tagStart.length + m1.tagLen + cfg.tagEnd.length) :
    ssiStep cfg m ch =
      (⟨.WAIT_BEGIN, [], 0⟩,
       cfg.repl ((m1.buff.drop cfg.tagStart.length).take m1.tagLen),
       [(m1.buff.drop cfg.tagStart.length).take m1.tagLen]) := by
  obtain ⟨st, bf, tl⟩ := m
  cases st with
  | WAIT_BEGIN => exact SsiSt.noConfusion hst
  | BEGIN => exact SsiSt.noConfusion hst
  | TAG => exact SsiSt.noConfusion hst
  | END =>
    dsimp only [pumpAccept] at hacc
    dsimp only [ssiStep]
    by_cases hc : bf.length - cfg.tagStart.length - tl < cfg.tagEnd.length ∧
        cfg.tagEnd.get? (bf.length - cfg.tagStart.length - tl) = some ch
    · rw [if_pos hc] at hacc
      rw [if_pos hc]
      injection hacc with h
      rw [if_pos (show (bf ++ [ch]).length =
          cfg.tagStart.length + tl + cfg.tagEnd.length from by
        rw [← h] at hlen; exact hlen)]
      rw [← h]
    · rw [if_neg hc] at hacc
      cases hacc

theorem ssiStep_of_reset (cfg : SsiCfg) (m : SsiM) (ch : Char)
    (hacc : pumpAccept cfg m ch = none) :
    ssiStep cfg m ch = (⟨.WAIT_BEGIN, [], m.tagLen⟩, m.buff ++ [ch], []) := by
  obtain ⟨st, bf, tl⟩ := m
  cases st with
  | WAIT_BEGIN =>
    dsimp only [pumpAccept] at hacc
    dsimp only [ssiStep]
    by_cases hc : cfg.tagStart.get? 0 = some ch
    · rw [if_pos hc] at hacc
      cases hacc
    · rw [if_neg hc]
  | BEGIN =>
    dsimp only [pumpAccept] at hacc
    dsimp only [ssiStep]
    by_cases hc : bf.length < cfg.tagStart.length ∧
        cfg.tagStart.get? bf.length = some ch
    · rw [if_pos hc] at hacc
      by_cases hd : (bf ++ [ch]).length = cfg.tagStart.length
      · rw [if_pos hd] at hacc
        cases hacc
      · rw [if_neg hd] at hacc
        cases hacc
    · rw [if_neg hc]
  | TAG =>
    dsimp only [pumpAccept] at hacc
    dsimp only [ssiStep]
    by_cases hc : cfg.tagEnd.get? 0 = some ch
    · rw [if_pos hc] at hacc
      cases hacc
    · rw [if_neg hc] at hacc
      rw [if_neg hc]
      by_cases hd : bf.length - cfg.tagStart.length < cfg.maxLen
      · rw [if_pos hd] at hacc
        cases hacc
      · rw [if_neg hd]
  | END =>
    dsimp only [pumpAccept] at hacc
    dsimp only [ssiStep]
    by_cases hc : bf.length - cfg.tagStart.length - tl < cfg.tagEnd.length ∧
        cfg.tagEnd.get? (bf.length - cfg.tagStart.length - tl) = some ch
    · rw [if_pos hc] at hacc
      cases hacc
    · rw [if_neg hc]

theorem ssiPumpLoop_stop (cfg : SsiCfg) (ch : Char) (rest : List Char)
    (ps : PumpState) (w : List WriteRec)
    (h0 : ps.conn_mem_available = 0) :
    ssiPumpLoop cfg (ch :: rest) ps w = (ps, w) := by
  dsimp only [ssiPumpLoop]
  rw [if_pos h0]

theorem ssiPumpLoop_accept (cfg : SsiCfg) (ch : Char) (rest : List Char)
    (ps : PumpState) (w : List WriteRec) (m1 : SsiM)
    (h0 : ¬ ps.conn_mem_available = 0)
    (hacc : pumpAccept cfg ps.ssi ch = some m1)
    (hnc : ¬ (ps.ssi.st = SsiSt.END ∧
      m1.buff.length = cfg.tagStart.length + m1.tagLen + cfg.tagEnd.length)) :
    ssiPumpLoop cfg (ch :: rest) ps w =
      ssiPumpLoop cfg rest { ps with ssi := m1 } w := by
  dsimp only [ssiPumpLoop]
  rw [if_neg h0, hacc]
  dsimp only
  rw [if_neg hnc]

theorem ssiPumpLoop_done (cfg : SsiCfg) (ch : Char) (rest : List Char)
    (ps : PumpState) (w : List WriteRec) (m1 : SsiM)
    (h0 : ¬ ps.conn_mem_available = 0)
    (hacc : pumpAccept cfg ps.ssi ch = some m1)
    (hst : ps.ssi.st = SsiSt.END)
    (hlen : m1.buff.length =
      cfg.tagStart.length + m1.tagLen + cfg.tagEnd.length) :
    ssiPumpLoop cfg (ch :: rest) ps w =
      ssiPumpLoop cfg rest
        { ps with
            ssi := ⟨.WAIT_BEGIN, [], 0⟩,
            conn_mem_available := ps.conn_mem_available -
              (cfg.repl
                ((m1.buff.drop cfg.tagStart.length).take m1.tagLen)).length,
            written_total := ps.written_total +
              (cfg.repl
                ((m1.buff.drop cfg.tagStart.length).take m1.tagLen)).length }
        (w ++ [⟨true,
          cfg.repl ((m1.buff.drop cfg.tagStart.length).take m1.tagLen),
          ps.conn_mem_available⟩]) := by
  dsimp only [ssiPumpLoop, esp_http_server_write, conn_write]
  rw [if_neg h0, hacc]
  dsimp only
  rw [if_pos ⟨hst, hlen⟩]

theorem ssiPumpLoop_reset_nobuff (cfg : SsiCfg) (ch : Char)
    (rest : List Char) (ps : PumpState) (w : List WriteRec)
    (h0 : ¬ ps.conn_mem_available = 0)
    (hacc : pumpAccept cfg ps.ssi ch = none)
    (hb : ps.ssi.buff = []) :
    ssiPumpLoop cfg (ch :: rest) ps w =
      ssiPumpLoop cfg rest
        { ps with
            conn_mem_available := ps.conn_mem_available - 1,
            written_total := ps.written_total + 1,
            ssi := ⟨.WAIT_BEGIN, [], ps.ssi.tagLen⟩ }
        (w ++ [⟨false, [ch], ps.conn_mem_available⟩]) := by
  dsimp only [ssiPumpLoop, conn_write]
  rw [if_neg h0, hacc]
  dsimp only
  rw [if_neg (show ¬ ps.ssi.buff.length ≠ 0 from by
    rw [hb]; exact not_not_intro rfl)]
  dsimp only
  rw [if_pos h0]
  rw [hb]
  simp only [List.length_cons, List.length_nil, Nat.zero_add]

theorem ssiPumpLoop_reset_flush (cfg : SsiCfg) (ch : Char)
    (rest : List Char) (ps : PumpState) (w : List WriteRec)
    (hacc : pumpAccept cfg ps.ssi ch = none)
    (hb : ps.ssi.buff.length ≠ 0)
    (hlt : ps.ssi.buff.length < ps.conn_mem_available) :
    ssiPumpLoop cfg (ch :: rest) ps w =
      ssiPumpLoop cfg rest
        { ps with
            conn_mem_available :=
              ps.conn_mem_available - ps.ssi.buff.length - 1,
            written_total := ps.written_total + ps.ssi.buff.length + 1,
            ssi_tag_buff_written := ps.ssi.buff.length,
            ssi := { ps.ssi with st := .WAIT_BEGIN, buff := [] } }
        ((w ++ [⟨false, ps.ssi.buff, ps.conn_mem_available⟩]) ++
          [⟨false, [ch], ps.conn_mem_available - ps.ssi.buff.length⟩]) := by
  have h0 : ¬ ps.conn_mem_available = 0 := by omega
  dsimp only [ssiPumpLoop, conn_write]
  rw [if_neg h0, hacc]
  dsimp only
  rw [if_pos hb]
  rw [show min ps.ssi.buff.length ps.conn_mem_available =
      ps.ssi.buff.length from by omega]
  rw [List.take_length]
  rw [if_pos rfl]
  dsimp only
  rw [if_pos (show ¬ ps.conn_mem_available - ps.ssi.buff.length = 0 from by
    omega)]
  simp only [List.length_cons, List.length_nil, Nat.zero_add]

theorem ssiPumpLoop_reset_stall (cfg : SsiCfg) (ch : Char)
    (rest : List Char) (ps : PumpState) (w : List WriteRec)
    (h0 : ¬ ps.conn_mem_available = 0)
    (hacc : pumpAccept cfg ps.ssi ch = none)
    (hge : ps.conn_mem_available ≤ ps.ssi.buff.length) :
    ssiPumpLoop cfg (ch :: rest) ps w =
      ({ ps with
           conn_mem_available := 0,
           written_total := ps.written_total + ps.conn_mem_available,
           ssi_tag_buff_written := ps.conn_mem_available,
           ssi := { ps.ssi with
             st := .WAIT_BEGIN,
             buff := if ps.conn_mem_available = ps.ssi.buff.length then []
               else ps.ssi.buff } },
       w ++ [⟨false, ps.ssi.buff.take ps.conn_mem_available,
         ps.conn_mem_available⟩]) := by
  dsimp only [ssiPumpLoop, conn_write]
  rw [if_neg h0, hacc]
  dsimp only
  rw [if_pos (show ps.ssi.buff.length ≠ 0 from by omega)]
  rw [show min ps.ssi.buff.length ps.conn_mem_available =
      ps.conn_mem_available from by omega]
  rw [show (ps.ssi.buff.take ps.conn_mem_available).length =
      ps.conn_mem_available from by rw [List.length_take]; omega]
  rw [Nat.sub_self]
  dsimp only
  rw [if_neg (not_not_intro rfl)]

/-- Whenever a `ssiPumpLoop` invocation returns with non-zero
`conn_mem_available` (the credit, which only decreases, never reached
zero), its writes append exactly the `ssiRun` output bytes — the
`ssi_fn` replacements as the `fromSsiFn` records — and its final SSI
sub-state is the `ssiRun` one: the ample-credit machine is the
credit-accounted pump under this hypothesis. -/
theorem ssiPumpLoop_ample (cfg : SsiCfg) :
    ∀ (l : List Char) (ps : PumpState) (w : List WriteRec),
      (ssiPumpLoop cfg l ps w).1.conn_mem_available ≠ 0 →
      ∃ w1, (ssiPumpLoop cfg l ps w).2 = w ++ w1 ∧
        (w1.map WriteRec.bytes).flatten = (ssiRun cfg ps.ssi l).2.1 ∧
        (w1.filter (fun r => r.fromSsiFn)).map WriteRec.bytes =
          ((ssiRun cfg ps.ssi l).2.2).map cfg.repl ∧
        (ssiPumpLoop cfg l ps w).1.ssi = (ssiRun cfg ps.ssi l).1 := by
  intro l
  induction l with
  | nil =>
    intro ps w hfin
    exact ⟨[], by simp [ssiPumpLoop], by simp [ssiRun], by simp [ssiRun],
      by simp [ssiPumpLoop, ssiRun]⟩
  | cons ch rest ih =>
    intro ps w hfin
    by_cases h0 : ps.conn_mem_available = 0
    · rw [ssiPumpLoop_stop cfg ch rest ps w h0] at hfin
      exact absurd h0 hfin
    · cases hacc : pumpAccept cfg ps.ssi ch with
      | some m1 =>
        by_cases hnc : ps.ssi.st = SsiSt.END ∧
            m1.buff.length = cfg.tagStart.length + m1.tagLen + cfg.tagEnd.length
        · rw [ssiPumpLoop_done cfg ch rest ps w m1 h0 hacc hnc.1 hnc.2]
            at hfin ⊢
          obtain ⟨w1, hw, hfl, hfi, hss⟩ := ih _ _ hfin
          dsimp only at hfl hfi hss
          rw [ssiRun_cons,
            ssiStep_of_accept_done cfg ps.ssi ch m1 hacc hnc.1 hnc.2]
          refine ⟨⟨true,
            cfg.repl ((m1.buff.drop cfg.tagStart.length).take m1.tagLen),
            ps.conn_mem_available⟩ :: w1, ?_, ?_, ?_, ?_⟩
          · rw [hw, List.append_assoc]
            rfl
          · dsimp only
            simp only [List.map_cons, List.flatten_cons, hfl]
          · dsimp only
            simp [hfi]
          · dsimp only
            exact hss
        · rw [ssiPumpLoop_accept cfg ch rest ps w m1 h0 hacc hnc] at hfin ⊢
          obtain ⟨w1, hw, hfl, hfi, hss⟩ := ih _ _ hfin
          dsimp only at hfl hfi hss
          rw [ssiRun_cons, ssiStep_of_accept cfg ps.ssi ch m1 hacc hnc]
          refine ⟨w1, hw, ?_, ?_, ?_⟩
          · dsimp only
            simp only [List.nil_append]
            exact hfl
          · dsimp only
            simp only [List.nil_append]
            exact hfi
          · dsimp only
            exact hss
      | none =>
        by_cases hstall : ps.conn_mem_available ≤ ps.ssi.buff.length
        · rw [ssiPumpLoop_reset_stall cfg ch rest ps w h0 hacc hstall] at hfin
          exact absurd rfl hfin
        · have hlt : ps.ssi.buff.length < ps.conn_mem_available := by omega
          by_cases hb : ps.ssi.buff = []
          · rw [ssiPumpLoop_reset_nobuff cfg ch rest ps w h0 hacc hb]
              at hfin ⊢
            obtain ⟨w1, hw, hfl, hfi, hss⟩ := ih _ _ hfin
            dsimp only at hfl hfi hss
            rw [ssiRun_cons, ssiStep_of_reset cfg ps.ssi ch hacc]
            refine ⟨⟨false, [ch], ps.conn_mem_available⟩ :: w1, ?_, ?_, ?_,
              ?_⟩
            · rw [hw, List.append_assoc]
              rfl
            · dsimp only
              simp only [List.map_cons, List.flatten_cons, hfl, hb,
                List.nil_append]
            · dsimp only
              simp [hfi]
            · dsimp only
              exact hss
          · have hblen : ps.ssi.buff.length ≠ 0 := fun h =>
              hb (List.length_eq_zero.mp h)
            rw [ssiPumpLoop_reset_flush cfg ch rest ps w hacc hblen hlt]
              at hfin ⊢
            obtain ⟨w1, hw, hfl, hfi, hss⟩ := ih _ _ hfin
            dsimp only at hfl hfi hss
            rw [ssiRun_cons, ssiStep_of_reset cfg ps.ssi ch hacc]
            refine ⟨⟨false, ps.ssi.buff, ps.conn_mem_available⟩ ::
              ⟨false, [ch], ps.conn_mem_available - ps.ssi.buff.length⟩ :: w1,
              ?_, ?_, ?_, ?_⟩
            · rw [hw, List.append_assoc, List.append_assoc]
              rfl
            · dsimp only
              simp only [List.map_cons, List.flatten_cons, hfl,
                List.append_assoc, List.cons_append, List.nil_append]
            · dsimp only
              simp [hfi]
            · dsimp only
              exact hss

/-- `send_response_ssi` for a fresh SSI state: the credit query record,
the loop's writes, then the zero-length flush record. -/
theorem send_response_ssi_pump_fresh (cfg : SsiCfg) (credit : Nat)
    (l : List Char) :
    send_response_ssi_pump cfg credit l {} =
      ((ssiPumpLoop cfg l { conn_mem_available := credit }
          [⟨false, [], 0⟩]).1,
       (ssiPumpLoop cfg l { conn_mem_available := credit }
          [⟨false, [], 0⟩]).2 ++
         [⟨false, [],
           (ssiPumpLoop cfg l { conn_mem_available := credit }
             [⟨false, [], 0⟩]).1.conn_mem_available⟩]) := by
  dsimp only [send_response_ssi_pump, conn_write]
  simp only [List.length_nil, Nat.sub_zero]
  rw [if_neg (Nat.lt_irrefl 0)]
  rfl

/-- C4 (amended): for an `is_ssi` response pump invocation whose
transmit credit does not run out (`conn_mem_available` still non-zero
when it returns), the bytes handed to `esp_conn_write` are the buffer
bytes with every complete tag — which is exactly a substring
`TAG_START ++ name ++ TAG_END` (second conjunct) — replaced by whatever
`ssi_fn` writes, with `ssi_fn` called once per tag in order; on a
mismatch the accumulated tag-buffer bytes and the mismatching byte are
emitted verbatim and consumed, so under remaining credit the mismatch
byte cannot begin a new tag; an attempt still open at the end of the
buffer stays pending in the tag buffer.  When the reset-path flush
exhausts the credit (third conjunct) the flush is clamped to the credit
(recorded in `ssi_tag_buff_written` for resumption), the mismatching
byte is neither written nor consumed, and the loop stops in
`WAIT_BEGIN` — so the next invocation re-scans that byte, where
(fourth conjunct) a byte equal to `TAG_START[0]` begins a new tag. -/
theorem ssi_tag_substitution (cfg : SsiCfg) (l : List Char)
    (credit : Nat) :
    ((send_response_ssi_pump cfg credit l {}).1.conn_mem_available ≠ 0 →
      (((send_response_ssi_pump cfg credit l {}).2.map
          WriteRec.bytes).flatten = (ssiRef cfg l.length l).1 ∧
        ((send_response_ssi_pump cfg credit l {}).2.filter
            (fun r => r.fromSsiFn)).map WriteRec.bytes =
          ((ssiRef cfg l.length l).2.1).map cfg.repl ∧
        (send_response_ssi_pump cfg credit l {}).1.ssi.buff =
          (ssiRef cfg l.length l).2.2)) ∧
    (∀ nm rest, scanAttempt cfg l = TagScan.complete nm rest →
      l = cfg.tagStart ++ nm ++ cfg.tagEnd ++ rest) ∧
    (∀ ch rest ps w, pumpAccept cfg ps.ssi ch = none →
      ¬ ps.conn_mem_available = 0 →
      ps.conn_mem_available ≤ ps.ssi.buff.length →
      (ssiPumpLoop cfg (ch :: rest) ps w).2 =
        w ++ [⟨false, ps.ssi.buff.take ps.conn_mem_available,
          ps.conn_mem_available⟩] ∧
      (ssiPumpLoop cfg (ch :: rest) ps w).1.ssi.st = SsiSt.WAIT_BEGIN ∧
      (ssiPumpLoop cfg (ch :: rest) ps w).1.ssi.buff =
        (if ps.conn_mem_available = ps.ssi.buff.length then []
          else ps.ssi.buff) ∧
      (ssiPumpLoop cfg (ch :: rest) ps w).1.ssi_tag_buff_written =
        ps.conn_mem_available ∧
      (ssiPumpLoop cfg (ch :: rest) ps w).1.conn_mem_available = 0) ∧
    (∀ ch t, cfg.tagStart.get? 0 = some ch →
      pumpAccept cfg ⟨.WAIT_BEGIN, [], t⟩ ch = some ⟨.BEGIN, [ch], t⟩) := by
  refine ⟨?_, fun nm rest h => scanAttempt_complete_shape cfg l nm rest h,
    ?_, ?_⟩
  · intro hfin
    rw [send_response_ssi_pump_fresh cfg credit l] at hfin ⊢
    obtain ⟨w1, hw, hfl, hfi, hss⟩ := ssiPumpLoop_ample cfg l
      { conn_mem_available := credit } [⟨false, [], 0⟩] hfin
    dsimp only at hfl hfi hss
    obtain ⟨hrO, hrC, hrB⟩ := ssiSimAux cfg l.length l le_rfl 0
    refine ⟨?_, ?_, ?_⟩
    · dsimp only
      rw [hw]
      simp only [List.map_append, List.flatten_append, List.map_cons,
        List.map_nil, List.flatten_cons, List.flatten_nil, List.append_nil,
        List.nil_append]
      rw [hfl]
      exact hrO
    · dsimp only
      rw [hrC] at hfi
      rw [hw]
      simp [hfi]
    · dsimp only
      rw [hss]
      exact hrB
  · intro ch rest ps w hacc h0 hle
    rw [ssiPumpLoop_reset_stall cfg ch rest ps w h0 hacc hle]
    exact ⟨rfl, rfl, rfl, rfl, rfl⟩
  · intro ch t hch
    dsimp only [pumpAccept]
    rw [if_pos hch]

theorem ssi_tag_substitution_witness :
    ((send_response_ssi_pump
        { tagStart := "<!--#".data, tagEnd := "-->".data, maxLen := 8,
          repl := fun _ => "R".data } 100 "<!--#N-->XY".data {}).2.map
      WriteRec.bytes).flatten = "RXY".data :=
  (((ssi_tag_substitution
      { tagStart := "<!--#".data, tagEnd := "-->".data, maxLen := 8,
        repl := fun _ => "R".data } "<!--#N-->XY".data 100).1
    (by decide)).1).trans (by decide)

/-- C5 counterexample: `esp_http_server_write` hands `ssi_fn`'s bytes to
`esp_conn_write` without clamping them to `conn_mem_available`.  With one
byte of credit and a replacement of two bytes, the pump issues a write of
2 bytes against credit 1. -/
theorem esp_http_server_write_not_credit_bounded :
    let cfg : SsiCfg := { tagStart := "<!--#".data, tagEnd := "-->".data,
                          maxLen := 8, repl := fun _ => "RR".data }
    let res := send_response_ssi_pump cfg 1 "<!--#N-->".data {}
    (⟨true, "RR".data, 1⟩ : WriteRec) ∈ res.2 ∧
    res.2.any (fun w => decide (w.availBefore < w.bytes.length)) = true := by
  decide

theorem ssiPumpLoop_writes_bounded (cfg : SsiCfg) :
    ∀ (l : List Char) (ps : PumpState) (w : List WriteRec),
      ∀ rec ∈ (ssiPumpLoop cfg l ps w).2,
        rec ∈ w ∨ rec.fromSsiFn = true ∨
          rec.bytes.length ≤ rec.availBefore := by
  intro l
  induction l with
  | nil =>
    intro ps w rec hrec
    rw [ssiPumpLoop] at hrec
    exact Or.inl hrec
  | cons ch rest ih =>
    intro ps w rec hrec
    rw [ssiPumpLoop] at hrec
    by_cases h0 : ps.conn_mem_available = 0
    · rw [if_pos h0] at hrec
      exact Or.inl hrec
    · rw [if_neg h0] at hrec
      cases hacc : pumpAccept cfg ps.ssi ch with
      | some m1 =>
        rw [hacc] at hrec
        dsimp only at hrec
        by_cases hdone : ps.ssi.st = SsiSt.END ∧
            m1.buff.length =
              cfg.tagStart.length + m1.tagLen + cfg.tagEnd.length
        · rw [if_pos hdone] at hrec
          dsimp only [esp_http_server_write, conn_write] at hrec
          rcases ih _ _ rec hrec with hr | hP
          · rcases List.mem_append.mp hr with hr | hr
            · exact Or.inl hr
            · rcases List.mem_singleton.mp hr with rfl
              exact Or.inr (Or.inl rfl)
          · exact Or.inr hP
        · rw [if_neg hdone] at hrec
          exact ih _ _ rec hrec
      | none =>
        rw [hacc] at hrec
        dsimp only [conn_write] at hrec
        by_cases hbuf : ps.ssi.buff.length ≠ 0
        · rw [if_pos hbuf] at hrec
          dsimp only at hrec
          split at hrec
          · rename_i havail
            rcases ih _ _ rec hrec with hr | hP
            · rcases List.mem_append.mp hr with hr | hr
              · rcases List.mem_append.mp hr with hr | hr
                · exact Or.inl hr
                · rcases List.mem_singleton.mp hr with rfl
                  refine Or.inr (Or.inr ?_)
                  simp [List.length_take]
              · rcases List.mem_singleton.mp hr with rfl
                refine Or.inr (Or.inr ?_)
                simp only [List.length_cons, List.length_nil]
                omega
            · exact Or.inr hP
          · rcases List.mem_append.mp hrec with hr | hr
            · exact Or.inl hr
            · rcases List.mem_singleton.mp hr with rfl
              refine Or.inr (Or.inr ?_)
              simp [List.length_take]
        · rw [if_neg hbuf] at hrec
          dsimp only at hrec
          rw [if_pos h0] at hrec
          rcases ih _ _ rec hrec with hr | hP
          · rcases List.mem_append.mp hr with hr | hr
            · exact Or.inl hr
            · rcases List.mem_singleton.mp hr with rfl
              refine Or.inr (Or.inr ?_)
              simp only [List.length_cons, List.length_nil]
              omega
          · exact Or.inr hP

theorem ssiPumpLoop_writes_extend (cfg : SsiCfg) :
    ∀ (l : List Char) (ps : PumpState) (w : List WriteRec),
      ∃ w', (ssiPumpLoop cfg l ps w).2 = w ++ w' := by
  intro l
  induction l with
  | nil =>
    intro ps w
    exact ⟨[], by rw [ssiPumpLoop]; simp⟩
  | cons ch rest ih =>
    intro ps w
    rw [ssiPumpLoop]
    by_cases h0 : ps.conn_mem_available = 0
    · rw [if_pos h0]
      exact ⟨[], by simp⟩
    · rw [if_neg h0]
      cases hacc : pumpAccept cfg ps.ssi ch with
      | some m1 =>
        dsimp only
        by_cases hdone : ps.ssi.st = SsiSt.END ∧
            m1.buff.length =
              cfg.tagStart.length + m1.tagLen + cfg.tagEnd.length
        · rw [if_pos hdone]
          dsimp only [esp_http_server_write, conn_write]
          obtain ⟨w', hw'⟩ := ih _ (w ++ [_])
          exact ⟨_, by rw [hw', List.append_assoc]⟩
        · rw [if_neg hdone]
          exact ih _ w
      | none =>
        dsimp only [conn_write]
        by_cases hbuf : ps.ssi.buff.length ≠ 0
        · rw [if_pos hbuf]
          dsimp only
          split
          · obtain ⟨w', hw'⟩ := ih _ ((w ++ [_]) ++ [_])
            exact ⟨_, by rw [hw', List.append_assoc, List.append_assoc]⟩
          · exact ⟨_, rfl⟩
        · rw [if_neg hbuf]
          dsimp only
          rw [if_pos h0]
          obtain ⟨w', hw'⟩ := ih _ (w ++ [_])
          exact ⟨_, by rw [hw', List.append_assoc]⟩

theorem ssiPumpLoop_get?_early (cfg : SsiCfg) (l : List Char)
    (ps : PumpState) (w tail2 : List WriteRec) (n : Nat)
    (hn : n < w.length) :
    ((ssiPumpLoop cfg l ps w).2 ++ tail2).get? n = w.get? n := by
  obtain ⟨w', hw'⟩ := ssiPumpLoop_writes_extend cfg l ps w
  rw [hw', List.append_assoc, List.get?_append hn]

/-- C5 (amended): every write the pump itself issues toward the
connection — the credit query, the resumed tag-buffer flush, the
reset-path flush and single-byte emission, and the final flush — hands
over no more bytes than the `conn_mem_available` credit at the moment of
the call; only the writes `ssi_fn` performs through
`esp_http_server_write` are passed through unclamped.  Leftover
tag-buffer bytes are resumed on the next pump invocation: when pending
bytes exist and credit allows, the pump's second write is exactly the
slice of the tag buffer starting at `ssi_tag_buff_written`. -/
theorem ssi_pump_writes_credit_policy (cfg : SsiCfg) (credit : Nat)
    (remaining : List Char) (ps : PumpState) :
    (∀ rec ∈ (send_response_ssi_pump cfg credit remaining ps).2,
      rec.fromSsiFn = true ∨ rec.bytes.length ≤ rec.availBefore) ∧
    (∀ len, ps.ssi_tag_buff_written < ps.ssi.buff.length →
      len = min (ps.ssi.buff.length - ps.ssi_tag_buff_written) credit →
      len ≠ 0 →
      (send_response_ssi_pump cfg credit remaining ps).2.get? 1 =
        some ⟨false, (ps.ssi.buff.drop ps.ssi_tag_buff_written).take len,
          credit⟩) := by
  constructor
  · intro rec hrec
    unfold send_response_ssi_pump at hrec
    dsimp only [conn_write] at hrec
    rcases List.mem_append.mp hrec with hr | hr
    · rcases ssiPumpLoop_writes_bounded cfg remaining _ _ rec hr with hw | hP
      · -- the record is one of the pre-loop writes
        by_cases hpre : ps.ssi_tag_buff_written < ps.ssi.buff.length
        · rw [if_pos hpre] at hw
          by_cases hlen :
              min (ps.ssi.buff.length - ps.ssi_tag_buff_written) credit ≠ 0
          · rw [if_pos hlen] at hw
            dsimp only at hw
            rcases List.mem_append.mp hw with hq | hq
            · rcases List.mem_append.mp hq with hq | hq
              · exact absurd hq (List.not_mem_nil rec)
              · rcases List.mem_singleton.mp hq with rfl
                exact Or.inr (by simp)
            · rcases List.mem_singleton.mp hq with rfl
              refine Or.inr ?_
              simp only [List.length_take, List.length_drop]
              omega
          · rw [if_neg hlen] at hw
            dsimp only at hw
            rcases List.mem_append.mp hw with hq | hq
            · exact absurd hq (List.not_mem_nil rec)
            · rcases List.mem_singleton.mp hq with rfl
              exact Or.inr (by simp)
        · rw [if_neg hpre] at hw
          dsimp only at hw
          rcases List.mem_append.mp hw with hq | hq
          · exact absurd hq (List.not_mem_nil rec)
          · rcases List.mem_singleton.mp hq with rfl
            exact Or.inr (by simp)
      · exact hP
    · rcases List.mem_singleton.mp hr with rfl
      exact Or.inr (by simp)
  · intro len hpre hleneq hlen0
    subst hleneq
    unfold send_response_ssi_pump
    dsimp only [conn_write]
    rw [if_pos hpre, if_pos hlen0]
    dsimp only
    refine (ssiPumpLoop_get?_early cfg remaining _ _ _ 1 ?_).trans ?_
    · simp
    · rfl

theorem ssi_pump_writes_credit_policy_witness :
    (send_response_ssi_pump
      { tagStart := "<!--#".data, tagEnd := "-->".data, maxLen := 8,
        repl := fun _ => "R".data } 2 []
      { ssi := { st := .WAIT_BEGIN, buff := "<!--#".data, tagLen := 0 },
        ssi_tag_buff_written := 2 }).2.get? 1 =
      some ⟨false, "--".data, 2⟩ :=
  (ssi_pump_writes_credit_policy
    { tagStart := "<!--#".data, tagEnd := "-->".data, maxLen := 8,
      repl := fun _ => "R".data } 2 []
    { ssi := { st := .WAIT_BEGIN, buff := "<!--#".data, tagLen := 0 },
      ssi_tag_buff_written := 2 }).2 2 (by decide) (by decide) (by decide)

theorem http_open_resp_file_tracked (hi : HttpInit) (maxParams : Nat)
    (fs : FsEnv) (u : Option (List Char)) (hs : HttpState) :
    (http_open_resp_file hi maxParams fs u hs).headers_received =
        hs.headers_received ∧
      (http_open_resp_file hi maxParams fs u hs).req_method = hs.req_method ∧
      (http_open_resp_file hi maxParams fs u hs).content_length =
        hs.content_length ∧
      (http_open_resp_file hi maxParams fs u hs).content_received =
        hs.content_received := by
  cases u with
  | none => exact ⟨rfl, rfl, rfl, rfl⟩
  | some uri =>
    dsimp only [http_open_resp_file]
    split
    · exact ⟨rfl, rfl, rfl, rfl⟩
    · exact ⟨rfl, rfl, rfl, rfl⟩

theorem http_evt_data_recv_accum (M N : Nat) (hi : HttpInit) (fs : FsEnv)
    (hs : HttpState) (log : PostLog) (pkt : List Char)
    (h1 : hs.headers_received = false)
    (h2 : firstMatch (hs.p ++ pkt) crlf2 = none) :
    http_evt_data_recv M N hi fs hs log pkt =
      ({ hs with p := hs.p ++ pkt }, log) := by
  have h2' : strfind (hs.p ++ pkt) crlf2 0 = none := by
    rw [strfind, List.drop_zero, h2]; rfl
  dsimp only [http_evt_data_recv]
  rw [if_pos (by rw [h1]; exact Bool.false_ne_true), h2']

theorem http_evt_data_recv_post_hdr_only (M N : Nat) (hi : HttpInit)
    (fs : FsEnv) (hs : HttpState) (log : PostLog) (pkt : List Char)
    (pos cl : Nat)
    (h1 : hs.headers_received = false)
    (h2 : firstMatch (hs.p ++ pkt) crlf2 = some pos)
    (h3 : strcmpAt (hs.p ++ pkt) "POST ".data 0 = true)
    (h4 : parse_content_length (hs.p ++ pkt) = cl)
    (h5 : cl ≠ 0)
    (h6 : (hs.p ++ pkt).length ≤ pos + 4) :
    http_evt_data_recv M N hi fs hs log pkt =
      (http_open_resp_file hi N fs (http_parse_uri M (hs.p ++ pkt))
         { hs with p := hs.p ++ pkt, headers_received := true,
                   req_method := .POST, content_length := cl },
       { log with starts := log.starts ++
           [((http_parse_uri M (hs.p ++ pkt)).getD [], cl)] }) := by
  have h2' : strfind (hs.p ++ pkt) crlf2 0 = some pos := by
    rw [strfind, List.drop_zero, h2]; rfl
  dsimp only [http_evt_data_recv]
  rw [if_pos (by rw [h1]; exact Bool.false_ne_true), h2']
  dsimp only
  rw [if_pos h3, h4, if_pos h5,
    if_neg (show ¬ (hs.p ++ pkt).length - (pos + 4) > 0 by omega)]

theorem http_evt_data_recv_post_midbody (M N : Nat) (hi : HttpInit)
    (fs : FsEnv) (hs : HttpState) (log : PostLog) (pkt : List Char)
    (pos cl : Nat)
    (h1 : hs.headers_received = false)
    (h2 : firstMatch (hs.p ++ pkt) crlf2 = some pos)
    (h3 : strcmpAt (hs.p ++ pkt) "POST ".data 0 = true)
    (h4 : parse_content_length (hs.p ++ pkt) = cl)
    (h5 : cl ≠ 0)
    (h6 : pos + 4 < (hs.p ++ pkt).length)
    (h7 : (hs.p ++ pkt).length - (pos + 4) < cl) :
    http_evt_data_recv M N hi fs hs log pkt =
      (http_open_resp_file hi N fs (http_parse_uri M (hs.p ++ pkt))
         { hs with p := hs.p ++ pkt, headers_received := true,
                   req_method := .POST, content_length := cl,
                   content_received := (hs.p ++ pkt).length - (pos + 4) },
       { log with
           starts := log.starts ++
             [((http_parse_uri M (hs.p ++ pkt)).getD [], cl)],
           chunks := log.chunks ++ [(hs.p ++ pkt).drop (pos + 4)] }) := by
  have h2' : strfind (hs.p ++ pkt) crlf2 0 = some pos := by
    rw [strfind, List.drop_zero, h2]; rfl
  dsimp only [http_evt_data_recv, http_post_send_to_user]
  rw [if_pos (by rw [h1]; exact Bool.false_ne_true), h2']
  dsimp only
  rw [if_pos h3, h4, if_pos h5,
    if_pos (show (hs.p ++ pkt).length - (pos + 4) > 0 by omega),
    if_pos h6]
  dsimp only
  rw [if_neg (show ¬ (hs.p ++ pkt).length - (pos + 4) ≥ cl by omega)]

theorem http_evt_data_recv_post_full (M N : Nat) (hi : HttpInit)
    (fs : FsEnv) (hs : HttpState) (log : PostLog) (pkt : List Char)
    (pos cl : Nat)
    (h1 : hs.headers_received = false)
    (h2 : firstMatch (hs.p ++ pkt) crlf2 = some pos)
    (h3 : strcmpAt (hs.p ++ pkt) "POST ".data 0 = true)
    (h4 : parse_content_length (hs.p ++ pkt) = cl)
    (h5 : cl ≠ 0)
    (h6 : pos + 4 < (hs.p ++ pkt).length)
    (h7 : cl ≤ (hs.p ++ pkt).length - (pos + 4)) :
    http_evt_data_recv M N hi fs hs log pkt =
      (http_open_resp_file hi N fs (http_parse_uri M (hs.p ++ pkt))
         { hs with p := hs.p ++ pkt, headers_received := true,
                   req_method := .POST, content_length := cl,
                   content_received := (hs.p ++ pkt).length - (pos + 4),
                   process_resp := true },
       { log with
           starts := log.starts ++
             [((http_parse_uri M (hs.p ++ pkt)).getD [], cl)],
           chunks := log.chunks ++ [(hs.p ++ pkt).drop (pos + 4)],
           endCalls := log.endCalls + 1 }) := by
  have h2' : strfind (hs.p ++ pkt) crlf2 0 = some pos := by
    rw [strfind, List.drop_zero, h2]; rfl
  dsimp only [http_evt_data_recv, http_post_send_to_user]
  rw [if_pos (by rw [h1]; exact Bool.false_ne_true), h2']
  dsimp only
  rw [if_pos h3, h4, if_pos h5,
    if_pos (show (hs.p ++ pkt).length - (pos + 4) > 0 by omega),
    if_pos h6]
  dsimp only
  rw [if_pos (show (hs.p ++ pkt).length - (pos + 4) ≥ cl by omega)]

theorem http_evt_data_recv_body_more (M N : Nat) (hi : HttpInit)
    (fs : FsEnv) (hs : HttpState) (log : PostLog) (pkt : List Char)
    (h1 : hs.headers_received = true)
    (h2 : hs.req_method = .POST)
    (h3 : hs.content_received < hs.content_length)
    (h4 : pkt ≠ [])
    (h5 : hs.content_received + pkt.length < hs.content_length) :
    http_evt_data_recv M N hi fs hs log pkt =
      ({ hs with content_received := hs.content_received + pkt.length },
       { log with chunks := log.chunks ++ [pkt] }) := by
  dsimp only [http_evt_data_recv, http_post_send_to_user]
  rw [if_neg (by rw [h1]; exact not_not_intro rfl), if_pos h2, if_pos h3,
    if_pos (List.length_pos.mpr h4), List.drop_zero]
  dsimp only
  rw [if_neg
    (show ¬ hs.content_received + pkt.length ≥ hs.content_length by omega)]

theorem http_evt_data_recv_body_done (M N : Nat) (hi : HttpInit)
    (fs : FsEnv) (hs : HttpState) (log : PostLog) (pkt : List Char)
    (h1 : hs.headers_received = true)
    (h2 : hs.req_method = .POST)
    (h3 : hs.content_received < hs.content_length)
    (h4 : pkt ≠ [])
    (h5 : hs.content_length ≤ hs.content_received + pkt.length) :
    http_evt_data_recv M N hi fs hs log pkt =
      ({ hs with content_received := hs.content_received + pkt.length,
                 process_resp := true },
       { log with
           chunks := log.chunks ++ [pkt],
           endCalls := log.endCalls + 1 }) := by
  dsimp only [http_evt_data_recv, http_post_send_to_user]
  rw [if_neg (by rw [h1]; exact not_not_intro rfl), if_pos h2, if_pos h3,
    if_pos (List.length_pos.mpr h4), List.drop_zero]
  dsimp only
  rw [if_pos
    (show hs.content_received + pkt.length ≥ hs.content_length by omega)]

theorem runHttpEvts_recv_cons (M N : Nat) (hi : HttpInit) (fs : FsEnv)
    (hs : HttpState) (log : PostLog) (pkt : List Char)
    (evts : List HttpEvt) :
    runHttpEvts M N hi fs (hs, log) (HttpEvt.recv pkt :: evts) =
      runHttpEvts M N hi fs (http_evt_data_recv M N hi fs hs log pkt)
        evts := rfl

theorem runHttpEvts_closed_cons (M N : Nat) (hi : HttpInit) (fs : FsEnv)
    (hs : HttpState) (log : PostLog) (evts : List HttpEvt) :
    runHttpEvts M N hi fs (hs, log) (HttpEvt.closed :: evts) =
      runHttpEvts M N hi fs (hs, http_evt_closed hs log) evts := rfl

theorem runHttpEvts_nil (M N : Nat) (hi : HttpInit) (fs : FsEnv)
    (hs : HttpState) (log : PostLog) :
    runHttpEvts M N hi fs (hs, log) [] = (hs, log) := rfl

/-- Invariant induction behind the POST-totality claim: before the
CRLFCRLF is complete the state only accumulates `p` (phase A); once the
headers completed the state tracks the received body byte count, the
chunks handed to `post_data_fn` concatenate to the body bytes received
so far, and `post_end_fn` has fired exactly when the body is complete
(phase B). -/
theorem post_totality_aux (M N : Nat) (hi : HttpInit) (fs : FsEnv)
    (reqhead delivered : List Char) (L : Nat)
    (hpost : ("POST ".data).isPrefixOf reqhead = true)
    (hhdr : firstMatch reqhead crlf2 = some (reqhead.length - 4))
    (hh4 : 4 ≤ reqhead.length)
    (hcl : ∀ k, k ≤ delivered.length →
      parse_content_length (reqhead ++ delivered.take k) = L)
    (hL : 0 < L) (hdel : delivered.length ≤ L) :
    ∀ (todo : List (List Char)) (n : Nat) (hs : HttpState) (log : PostLog),
      (∀ pk ∈ todo, pk ≠ []) →
      todo.flatten = (reqhead ++ delivered).drop n →
      n ≤ (reqhead ++ delivered).length →
      ((n < reqhead.length ∧
          hs = { p := (reqhead ++ delivered).take n } ∧ log = {}) ∨
        (reqhead.length ≤ n ∧ hs.headers_received = true ∧
          hs.req_method = .POST ∧ hs.content_length = L ∧
          hs.content_received = n - reqhead.length ∧
          log.chunks.flatten = delivered.take (n - reqhead.length) ∧
          log.endCalls = if L ≤ n - reqhead.length then 1 else 0)) →
      (runHttpEvts M N hi fs (hs, log)
          (todo.map HttpEvt.recv ++ [HttpEvt.closed])).2.chunks.flatten =
          delivered ∧
        (runHttpEvts M N hi fs (hs, log)
          (todo.map HttpEvt.recv ++ [HttpEvt.closed])).2.endCalls = 1 := by
  intro todo
  have hTl : (reqhead ++ delivered).length =
      reqhead.length + delivered.length := List.length_append _ _
  induction todo with
  | nil =>
    intro n hs log hne hflat hn hinv
    have hnge : (reqhead ++ delivered).length ≤ n :=
      List.drop_eq_nil_iff.mp ((List.flatten_nil).symm.trans hflat).symm
    rcases hinv with ⟨hlt, _, _⟩ | ⟨hge, hhr, hm, hclL, hcr, hch, hec⟩
    · exact absurd hlt (by omega)
    · have hr : n - reqhead.length = delivered.length := by omega
      simp only [List.map_nil, List.nil_append]
      rw [runHttpEvts_closed_cons, runHttpEvts_nil]
      dsimp only [http_evt_closed]
      by_cases hlt : hs.content_received < hs.content_length
      · have hrlt : ¬ L ≤ n - reqhead.length := by
          rw [hcr, hclL] at hlt; omega
        rw [if_pos ⟨hm, hlt⟩]
        refine ⟨?_, ?_⟩
        · show log.chunks.flatten = delivered
          rw [hch, hr, List.take_length]
        · show log.endCalls + 1 = 1
          rw [hec, if_neg hrlt]
      · have hrle : L ≤ n - reqhead.length := by
          rw [hcr, hclL] at hlt; omega
        rw [if_neg (fun hc => hlt hc.2)]
        refine ⟨?_, ?_⟩
        · rw [hch, hr, List.take_length]
        · rw [hec, if_pos hrle]
  | cons pk todo ih =>
    intro n hs log hne hflat hn hinv
    have hpkne : pk ≠ [] := hne pk (List.mem_cons_self _ _)
    have hne' : ∀ q ∈ todo, q ≠ [] := fun q hq =>
      hne q (List.mem_cons_of_mem _ hq)
    have hflatc : pk ++ todo.flatten = (reqhead ++ delivered).drop n := by
      rw [← List.flatten_cons]; exact hflat
    have hlen1 : n + pk.length ≤ (reqhead ++ delivered).length := by
      have hl := congrArg List.length hflatc
      simp only [List.length_append, List.length_drop] at hl
      omega
    have hflat' : todo.flatten =
        (reqhead ++ delivered).drop (n + pk.length) := by
      have h1 : todo.flatten =
          ((reqhead ++ delivered).drop n).drop pk.length := by
        rw [← hflatc, List.drop_left]
      rw [h1, List.drop_drop]
    have hpk : pk = ((reqhead ++ delivered).drop n).take pk.length := by
      rw [← hflatc, List.take_left]
    rw [List.map_cons, List.cons_append, runHttpEvts_recv_cons]
    rcases hinv with ⟨hltA, hhs, hlog⟩ | ⟨hge, hhr, hm, hclL, hcr, hch, hec⟩
    · -- phase A: still accumulating header bytes
      have hhdr0 : hs.headers_received = false := by rw [hhs]
      have hppk : hs.p ++ pk =
          (reqhead ++ delivered).take (n + pk.length) := by
        rw [List.take_add]
        have h2 : hs.p = (reqhead ++ delivered).take n := by rw [hhs]
        rw [h2]
        exact congrArg (fun x => (reqhead ++ delivered).take n ++ x) hpk
      by_cases hA : n + pk.length < reqhead.length
      · -- the CRLFCRLF is still not complete
        have hfm : firstMatch (hs.p ++ pk) crlf2 = none := by
          rw [hppk,
            List.take_append_of_le_length
              (show n + pk.length ≤ reqhead.length by omega)]
          exact firstMatch_take_none hhdr
            (show n + pk.length < reqhead.length - 4 + crlf2.length by
              have hc4 : crlf2.length = 4 := rfl
              omega)
        rw [http_evt_data_recv_accum M N hi fs hs log pk hhdr0 hfm]
        refine ih (n + pk.length) _ _ hne' hflat' hlen1 (Or.inl ⟨hA, ?_, hlog⟩)
        rw [hppk, hhs]
      · -- the packet completes the headers: transition to phase B
        have hr'le : n + pk.length - reqhead.length ≤ delivered.length := by
          omega
        have hp'eq : (reqhead ++ delivered).take (n + pk.length) =
            reqhead ++ delivered.take (n + pk.length - reqhead.length) := by
          rw [List.take_append_eq_append_take,
            List.take_of_length_le (show reqhead.length ≤ n + pk.length by omega)]
        have hfm' : firstMatch (hs.p ++ pk) crlf2 =
            some (reqhead.length - 4) := by
          rw [hppk, hp'eq]
          exact firstMatch_append hhdr
            (by have hc4 : crlf2.length = 4 := rfl; omega)
        have hpostAt : strcmpAt (hs.p ++ pk) "POST ".data 0 = true := by
          dsimp only [strcmpAt]
          rw [List.drop_zero, hppk, hp'eq, List.isPrefixOf_iff_prefix]
          exact (List.isPrefixOf_iff_prefix.mp hpost).trans
            (List.prefix_append _ _)
        have hclp : parse_content_length (hs.p ++ pk) = L := by
          rw [hppk, hp'eq]
          exact hcl _ hr'le
        have hlenp : (hs.p ++ pk).length =
            reqhead.length + (n + pk.length - reqhead.length) := by
          rw [hppk, List.length_take]
          omega
        have hdropp : (hs.p ++ pk).drop (reqhead.length - 4 + 4) =
            delivered.take (n + pk.length - reqhead.length) := by
          rw [hppk, hp'eq,
            show reqhead.length - 4 + 4 = reqhead.length from by omega,
            List.drop_left]
        have hcr0 : hs.content_received = 0 := by rw [hhs]
        by_cases hB0 : (hs.p ++ pk).length ≤ reqhead.length - 4 + 4
        · -- no body byte in this packet: n + pk.length = reqhead.length
          have hr0 : n + pk.length - reqhead.length = 0 := by omega
          rw [http_evt_data_recv_post_hdr_only M N hi fs hs log pk
            (reqhead.length - 4) L hhdr0 hfm' hpostAt hclp
            (by omega) hB0]
          obtain ⟨t1, t2, t3, t4⟩ := http_open_resp_file_tracked hi N fs
            (http_parse_uri M (hs.p ++ pk))
            { hs with p := hs.p ++ pk, headers_received := true,
                      req_method := .POST, content_length := L }
          refine ih (n + pk.length) _ _ hne' hflat' hlen1
            (Or.inr ⟨by omega, t1, t2, t3, ?_, ?_, ?_⟩)
          · rw [t4]
            show hs.content_received = n + pk.length - reqhead.length
            rw [hcr0, hr0]
          · show log.chunks.flatten =
              delivered.take (n + pk.length - reqhead.length)
            rw [hlog, hr0, List.take_zero]
            rfl
          · show log.endCalls = if L ≤ n + pk.length - reqhead.length
              then 1 else 0
            rw [hlog, hr0, if_neg (show ¬ L ≤ 0 by omega)]
        · -- some body bytes arrive together with the header end
          have hr0 : 0 < n + pk.length - reqhead.length := by omega
          by_cases hBc : n + pk.length - reqhead.length < L
          · -- body still incomplete
            rw [http_evt_data_recv_post_midbody M N hi fs hs log pk
              (reqhead.length - 4) L hhdr0 hfm' hpostAt hclp
              (by omega) (by omega) (by omega)]
            obtain ⟨t1, t2, t3, t4⟩ := http_open_resp_file_tracked hi N fs
              (http_parse_uri M (hs.p ++ pk))
              { hs with p := hs.p ++ pk, headers_received := true,
                        req_method := .POST, content_length := L,
                        content_received :=
                          (hs.p ++ pk).length - (reqhead.length - 4 + 4) }
            refine ih (n + pk.length) _ _ hne' hflat' hlen1
              (Or.inr ⟨by omega, t1, t2, t3, ?_, ?_, ?_⟩)
            · rw [t4]
              show (hs.p ++ pk).length - (reqhead.length - 4 + 4) =
                n + pk.length - reqhead.length
              omega
            · show (log.chunks ++
                  [(hs.p ++ pk).drop (reqhead.length - 4 + 4)]).flatten =
                delivered.take (n + pk.length - reqhead.length)
              rw [List.flatten_append, hlog, hdropp]
              simp only [List.flatten_cons, List.flatten_nil, List.append_nil]
              rfl
            · show log.endCalls = if L ≤ n + pk.length - reqhead.length
                then 1 else 0
              rw [hlog, if_neg (show ¬ L ≤ n + pk.length - reqhead.length
                by omega)]
          · -- the whole body arrives with the header end
            rw [http_evt_data_recv_post_full M N hi fs hs log pk
              (reqhead.length - 4) L hhdr0 hfm' hpostAt hclp
              (by omega) (by omega) (by omega)]
            obtain ⟨t1, t2, t3, t4⟩ := http_open_resp_file_tracked hi N fs
              (http_parse_uri M (hs.p ++ pk))
              { hs with p := hs.p ++ pk, headers_received := true,
                        req_method := .POST, content_length := L,
                        content_received :=
                          (hs.p ++ pk).length - (reqhead.length - 4 + 4),
                        process_resp := true }
            refine ih (n + pk.length) _ _ hne' hflat' hlen1
              (Or.inr ⟨by omega, t1, t2, t3, ?_, ?_, ?_⟩)
            · rw [t4]
              show (hs.p ++ pk).length - (reqhead.length - 4 + 4) =
                n + pk.length - reqhead.length
              omega
            · show (log.chunks ++
                  [(hs.p ++ pk).drop (reqhead.length - 4 + 4)]).flatten =
                delivered.take (n + pk.length - reqhead.length)
              rw [List.flatten_append, hlog, hdropp]
              simp only [List.flatten_cons, List.flatten_nil, List.append_nil]
              rfl
            · show log.endCalls + 1 = if L ≤ n + pk.length - reqhead.length
                then 1 else 0
              rw [hlog, if_pos (show L ≤ n + pk.length - reqhead.length
                by omega)]
    · -- phase B: headers complete, streaming body bytes
      have hrd : n - reqhead.length ≤ delivered.length := by omega
      have hrL : n - reqhead.length < L := by
        rcases Nat.lt_or_ge (n - reqhead.length) L with h | h
        · exact h
        · exfalso
          have h2 : n = (reqhead ++ delivered).length := by omega
          rw [h2, List.drop_length] at hflatc
          exact hpkne (List.append_eq_nil.mp hflatc).1
      have hdropT : (reqhead ++ delivered).drop n =
          delivered.drop (n - reqhead.length) := by
        rw [List.drop_append_eq_append_drop, List.drop_eq_nil_of_le hge,
          List.nil_append]
      have hpk' : pk =
          (delivered.drop (n - reqhead.length)).take pk.length := by
        conv_lhs => rw [hpk]
        rw [hdropT]
      have htake' : delivered.take (n - reqhead.length) ++ pk =
          delivered.take (n - reqhead.length + pk.length) := by
        rw [List.take_add]
        exact congrArg
          (fun x => delivered.take (n - reqhead.length) ++ x) hpk'
      have hchg : (log.chunks ++ [pk]).flatten =
          delivered.take (n + pk.length - reqhead.length) := by
        rw [List.flatten_append, hch]
        simp only [List.flatten_cons, List.flatten_nil, List.append_nil]
        rw [htake',
          show n - reqhead.length + pk.length =
            n + pk.length - reqhead.length from by omega]
      have hlt : hs.content_received < hs.content_length := by
        rw [hcr, hclL]; exact hrL
      by_cases hcomp : hs.content_length ≤ hs.content_received + pk.length
      · -- this packet completes the body
        rw [http_evt_data_recv_body_done M N hi fs hs log pk hhr hm hlt
          hpkne hcomp]
        refine ih (n + pk.length) _ _ hne' hflat' hlen1
          (Or.inr ⟨by omega, hhr, hm, hclL, ?_, hchg, ?_⟩)
        · show hs.content_received + pk.length =
            n + pk.length - reqhead.length
          rw [hcr]; omega
        · show log.endCalls + 1 = if L ≤ n + pk.length - reqhead.length
            then 1 else 0
          rw [hec, if_neg (show ¬ L ≤ n - reqhead.length by omega),
            if_pos (show L ≤ n + pk.length - reqhead.length by
              rw [hcr, hclL] at hcomp; omega)]
      · -- body still incomplete after this packet
        rw [http_evt_data_recv_body_more M N hi fs hs log pk hhr hm hlt
          hpkne (by omega)]
        refine ih (n + pk.length) _ _ hne' hflat' hlen1
          (Or.inr ⟨by omega, hhr, hm, hclL, ?_, hchg, ?_⟩)
        · show hs.content_received + pk.length =
            n + pk.length - reqhead.length
          rw [hcr]; omega
        · show log.endCalls = if L ≤ n + pk.length - reqhead.length
            then 1 else 0
          rw [hec, if_neg (show ¬ L ≤ n - reqhead.length by omega),
            if_neg (show ¬ L ≤ n + pk.length - reqhead.length by
              rw [hcr, hclL] at hcomp; omega)]

/-- C3: for every POST request with a nonzero `Content-Length` whose
header and body bytes arrive split across an arbitrary partition of
nonempty `CONN_DATA_RECV` packets, `post_data_fn` receives chunks whose
concatenation equals exactly the delivered body bytes, and
`post_end_fn` is invoked exactly once: when `content_received` reaches
`content_length`, or on `CONN_CLOSED` if the body was still
incomplete. -/
theorem post_totality (M N : Nat) (hi : HttpInit) (fs : FsEnv)
    (reqhead delivered : List Char) (L : Nat)
    (packets : List (List Char))
    (hne : ∀ pk ∈ packets, pk ≠ [])
    (hflat : packets.flatten = reqhead ++ delivered)
    (hpost : ("POST ".data).isPrefixOf reqhead = true)
    (hhdr : firstMatch reqhead crlf2 = some (reqhead.length - 4))
    (hh4 : 4 ≤ reqhead.length)
    (hcl : ∀ k, k ≤ delivered.length →
      parse_content_length (reqhead ++ delivered.take k) = L)
    (hL : 0 < L) (hdel : delivered.length ≤ L) :
    (runHttpEvts M N hi fs ({}, {})
        (packets.map HttpEvt.recv ++ [HttpEvt.closed])).2.chunks.flatten =
        delivered ∧
      (runHttpEvts M N hi fs ({}, {})
        (packets.map HttpEvt.recv ++ [HttpEvt.closed])).2.endCalls = 1 := by
  refine post_totality_aux M N hi fs reqhead delivered L hpost hhdr hh4 hcl
    hL hdel packets 0 {} {} hne (by rw [List.drop_zero]; exact hflat)
    (Nat.zero_le _) (Or.inl ⟨by omega, ?_, rfl⟩)
  rw [List.take_zero]

theorem post_totality_witness :
    (runHttpEvts 256 16 {} ⟨fun _ => false⟩ ({}, {})
        (([("POST /u HTTP/1.0\r\nContent-Le").data,
            ("ngth: 4\r\n\r\nAB").data, "CD".data].map HttpEvt.recv) ++
          [HttpEvt.closed])).2.chunks.flatten = "ABCD".data ∧
      (runHttpEvts 256 16 {} ⟨fun _ => false⟩ ({}, {})
        (([("POST /u HTTP/1.0\r\nContent-Le").data,
            ("ngth: 4\r\n\r\nAB").data, "CD".data].map HttpEvt.recv) ++
          [HttpEvt.closed])).2.endCalls = 1 :=
  post_totality 256 16 {} ⟨fun _ => false⟩
    ("POST /u HTTP/1.0\r\nContent-Length: 4\r\n\r\n").data "ABCD".data 4
    [("POST /u HTTP/1.0\r\nContent-Le").data,
      ("ngth: 4\r\n\r\nAB").data, "CD".data]
    (by decide) (by decide) (by decide) (by decide) (by decide)
    (by decide) (by decide) (by decide)

end EspAt
